import Mathlib

/-!
Verification of the RxJStore cache/batching core against its specification.

The RxStore / RxBatchingStore / SubscriberMonitor sources are shallowly embedded:
observable streams are modelled as finite emission traces, the per-key cache as an
association list of entries driven by an explicit operation sequence, and JavaScript
value coercions (`x || y`, `filter(Boolean)`, `v ? a : b`) are modelled with an
explicit truthiness function on the payload type.
-/

set_option maxHeartbeats 1000000

namespace RxJStore

/-- Consumer-facing result shape (source: interface IRxStore<T, TError>).
`none` models the JS value `undefined` for the `value` and `error` fields. -/
structure CacheResult (T E : Type) where
  loading : Bool
  value : Option T
  error : Option E
deriving DecidableEq, Repr

/-- Aggregate result shape of getStores (source: interface IRxStores<T, TError>). -/
structure IRxStores (T E : Type) where
  loading : Bool
  value : List T
  error : List E
deriving DecidableEq, Repr

/-- One run of a fetcher observable (fetch contract `(params, extra?) -> Stream<T>`):
the values it emits in order, then an optional raw error terminating the stream. -/
structure FetchOutcome (T E0 : Type) where
  values : List T
  failure : Option E0
deriving DecidableEq, Repr

/-- JS Boolean coercion of a possibly-undefined value: `undefined` is falsy, and a
present value is coerced by the ambient truthiness function `t` of its type. -/
def jsTruthyOpt (t : α → Bool) : Option α → Bool
  | none => false
  | some v => t v

/-- The JS expression `a || b` for possibly-undefined operands. -/
def jsOr (t : α → Bool) (a b : Option α) : Option α :=
  if jsTruthyOpt t a then a else b

/-! ### The per-entry fetch pipeline of RxStore.init

A stream processed by the pipeline is a pair: the emissions delivered downstream and
an optional raw terminal error (an rxjs stream that errors delivers no further values). -/

/-- The rxjs `catchError(handler)` operator: a raw terminal error is replaced by the
handler stream appended after the upstream emissions. -/
def catchErrorOp (handler : E0 → List β × Option E0) : List β × Option E0 → List β × Option E0
  | (es, none) => (es, none)
  | (es, some e) => (es ++ (handler e).1, (handler e).2)

/-- The rxjs `map(f)` operator on a stream with a possible raw terminal error. -/
def mapStreamOp (f : α → β) : List α × Option E0 → List β × Option E0
  | (es, t) => (es.map f, t)

/-- The inner fetch stream built in RxStore.init:
`this.fetcher(params, extra).pipe(map(value => ({value, loading: false})),
catchError(err => { store.lastFetchFailed = true; return of({value: undefined,
loading: false, error: this.errorParserLogger(err)}) }))`.
(`parse` is the errorParserLogger; the lastFetchFailed write is handled by the
store machine below.) -/
def fetcherPipeline (parse : E0 → E) (fo : FetchOutcome T E0) :
    List (CacheResult T E) × Option E0 :=
  catchErrorOp
    (fun err => ([{ loading := false, value := none, error := some (parse err) }], none))
    (mapStreamOp (fun v => { loading := false, value := some v, error := none })
      (fo.values, fo.failure))

/-- Output of processing the invalidation channel: downstream emissions, the raw
terminal error (if one escaped), and the next fetch invocation index. -/
structure ProcOut (T E E0 : Type) where
  emissions : List (CacheResult T E)
  rawTerminal : Option E0
  nextFetch : Nat
deriving DecidableEq, Repr

/-- The `updateValueRS.pipe(switchMap(val => val ? of(val) : networkFetchOb))` stage:
each channel value is either a locally injected result (re-emitted as-is) or
`undefined`, which subscribes networkFetchOb — emitting `{loading: true}` and then the
fetcher pipeline of one fresh fetcher invocation (`outcomes n` is the n-th invocation
for this entry).  Sequential trace model: each inner stream settles before the next
channel value arrives. -/
def refetchGo (parse : E0 → E) (outcomes : Nat → FetchOutcome T E0) :
    Nat → List (Option (CacheResult T E)) → ProcOut T E E0
  | n, [] => ⟨[], none, n⟩
  | n, some v :: rest =>
    let r := refetchGo parse outcomes n rest
    ⟨v :: r.emissions, r.rawTerminal, r.nextFetch⟩
  | n, none :: rest =>
    let fp := fetcherPipeline parse (outcomes n)
    match fp.2 with
    | some e => ⟨{ loading := true, value := none, error := none } :: fp.1, some e, n + 1⟩
    | none =>
      let r := refetchGo parse outcomes (n + 1) rest
      ⟨({ loading := true, value := none, error := none } :: fp.1) ++ r.emissions,
        r.rawTerminal, r.nextFetch⟩

/-- The `startWith(undefined), pairwise(), map(...)` stage of RxStore.init:
`{ loading: newValue.loading, value: (newValue && newValue.value) ||
(previousValue && previousValue.value), ...(newValue.error ? {error: newValue.error}
: undefined) }`.  `prev` is the raw previous upstream emission (`none` initially,
from startWith(undefined)); `tT`/`tE` are the JS truthiness of T and E values. -/
def pairwiseMergeGo (tT : T → Bool) (tE : E → Bool) :
    Option (CacheResult T E) → List (CacheResult T E) → List (CacheResult T E)
  | _, [] => []
  | prev, nv :: rest =>
    { loading := nv.loading,
      value := jsOr tT nv.value (prev.bind (fun r => r.value)),
      error := if jsTruthyOpt tE nv.error then nv.error else none } ::
      pairwiseMergeGo tT tE (some nv) rest

/-- The consumer-visible emission sequence of a cache entry. -/
def pairwiseMerge (tT : T → Bool) (tE : E → Bool) (l : List (CacheResult T E)) :
    List (CacheResult T E) :=
  pairwiseMergeGo tT tE none l

/-- shareReplay(1): a subscriber that attaches after `k` emissions have already
happened first receives the most recent of them (if any), then all later ones. -/
def subscriberView (emissions : List α) (k : Nat) : List α :=
  (match (emissions.take k).getLast? with
   | some x => [x]
   | none => []) ++ emissions.drop k

/-! ### getStores: combineLatest + combination map + distinctUntilKeyChanged -/

/-- Collect a list of options into an option of a list (all must be present). -/
def seqOptions : List (Option α) → Option (List α)
  | [] => some []
  | none :: _ => none
  | some v :: rest => (seqOptions rest).map (fun l => v :: l)

/-- Trace semantics of rxjs `combineLatest`: `sched` is the interleaving of the
constituent streams (event `i` delivers the next pending emission of stream `i`);
a combined snapshot is emitted after each event once every constituent has emitted
at least once.  Events naming an exhausted or out-of-range stream deliver nothing. -/
def combineLatestGo : List (List α) → List (Option α) → List Nat → List (List α)
  | _, _, [] => []
  | remaining, latest, i :: rest =>
    match remaining[i]? with
    | some (v :: vs) =>
      let remaining2 := remaining.set i vs
      let latest2 := latest.set i (some v)
      match seqOptions latest2 with
      | some snap => snap :: combineLatestGo remaining2 latest2 rest
      | none => combineLatestGo remaining2 latest2 rest
    | _ => combineLatestGo remaining latest rest

def combineLatestTrace (streams : List (List α)) (sched : List Nat) : List (List α) :=
  combineLatestGo streams (streams.map (fun _ => none)) sched

/-- The combination map of RxStore.getStores:
`anyLoading = storeOutput.map(s => s.loading).some(l => l === true)`,
`values = storeOutput.map(s => s.value).filter(Boolean)`,
`errors = storeOutput.map(s => s.error).filter(Boolean)`.
`filter(Boolean)` keeps exactly the truthy entries (so JS-falsy present values are
dropped too); `reduceOption` models the resulting `T[]` typing. -/
def combineStores (tT : T → Bool) (tE : E → Bool) (snap : List (CacheResult T E)) :
    IRxStores T E :=
  { loading := (snap.map (fun r => r.loading)).any (fun l => l == true),
    value := ((snap.map (fun r => r.value)).filter (jsTruthyOpt tT)).reduceOption,
    error := ((snap.map (fun r => r.error)).filter (jsTruthyOpt tE)).reduceOption }

/-- Tail of rxjs `distinctUntilKeyChanged("loading")`: forward an emission iff its
`loading` field differs from the last forwarded emission. -/
def duklGo (prev : IRxStores T E) : List (IRxStores T E) → List (IRxStores T E)
  | [] => []
  | y :: ys => if y.loading = prev.loading then duklGo prev ys else y :: duklGo y ys

/-- rxjs `distinctUntilKeyChanged("loading")`: the first emission always passes. -/
def distinctUntilLoadingChanged : List (IRxStores T E) → List (IRxStores T E)
  | [] => []
  | x :: xs => x :: duklGo x xs

/-- RxStore.getStores for a non-empty params list, as a function of the constituent
entry emission streams and their interleaving. -/
def getStoresModel (tT : T → Bool) (tE : E → Bool)
    (streams : List (List (CacheResult T E))) (sched : List Nat) :
    List (IRxStores T E) :=
  distinctUntilLoadingChanged
    ((combineLatestTrace streams sched).map (combineStores tT tE))

/-! ### RxBatchingStore: window construction and result dispatch -/

/-- lodash `uniqBy` walks the list keeping a set of keys already seen; an element is
kept iff its key has not been seen before. -/
def uniqByKeyGo [DecidableEq κ] (f : α → κ) (seen : List κ) : List α → List α
  | [] => []
  | x :: xs =>
    if f x ∈ seen then uniqByKeyGo f seen xs
    else x :: uniqByKeyGo f (f x :: seen) xs

/-- lodash `uniqBy f l`: keep the first occurrence of each key, preserving order
(used by RxBatchingStore.fetchBatch to de-duplicate one buffered window). -/
def uniqByKey [DecidableEq κ] (f : α → κ) (l : List α) : List α :=
  uniqByKeyGo f [] l

/-- A buffered per-key request with the optional extra value its caller carried
(source: interface IRequestWithExtra<TRequest, Extra>). -/
structure ReqWithExtra (Req Extra : Type) where
  request : Req
  extra : Option Extra
deriving DecidableEq, Repr

/-- One batch window (source: interface IBatchEvent): the hashes of all buffered
requests (the source stores them in a `Set`; membership is all that is used), and the
argument handed to the single `batchFetchingFunction` call of the window. -/
structure BatchEventM (Req Extra : Type) where
  requestHashes : List String
  fetchArg : List (ReqWithExtra Req Extra)
deriving DecidableEq, Repr

/-- RxBatchingStore.fetchBatch: `uniqRequests = uniqBy(reqs, req =>
nodeObjectSorter(req.request))` is handed to the collective fetch; `requestHashes =
new Set(reqs.map(req => nodeObjectSorter(req.request)))` records every buffered
request's hash for waiter matching. -/
def fetchBatchM (hash : Req → String) (reqs : List (ReqWithExtra Req Extra)) :
    BatchEventM Req Extra :=
  { requestHashes := reqs.map (fun r => hash r.request),
    fetchArg := uniqByKey (fun r => hash r.request) reqs }

/-- One element of a collective fetch result
(source: interface IRxBatchSingleResponse<TResponse, TRequest>).
`error` present models a truthy `error` field (JS Error objects are truthy). -/
structure BatchSingleResponse (Resp Req E0 : Type) where
  request : Req
  response : Resp
  error : Option E0
deriving DecidableEq, Repr

/-- lodash `keyBy(results, r => hash(r.request))` followed by
`responsesDictionary[requestHash]`: the lookup finds the result with the given hash,
a later duplicate key overwriting an earlier one. -/
def keyByLookup (hash : Req → String) (results : List (BatchSingleResponse Resp Req E0))
    (h : String) : Option (BatchSingleResponse Resp Req E0) :=
  results.reverse.find? (fun r => hash r.request == h)

/-- The final `switchMap` of RxBatchingStore.fetch: given the dictionary entry for this
request's hash, `throwError(v.error)` if it carries an error, `of(v.response)` if it
carries a response, and `of(undefined)` when the hash is absent from the results.
Returns (emitted values, raw terminal error); an emitted `none` is the value
`undefined`. -/
def dispatchResult : Option (BatchSingleResponse Resp Req E0) → List (Option Resp) × Option E0
  | some r =>
    match r.error with
    | some e => ([], some e)
    | none => ([some r.response], none)
  | none => ([none], none)

/-- The per-key stream a batched request receives once its window's results arrive. -/
def batchedPerKeyStream (hash : Req → String)
    (results : List (BatchSingleResponse Resp Req E0)) (h : String) :
    List (Option Resp) × Option E0 :=
  dispatchResult (keyByLookup hash results h)

/-- RxStore.init wraps every value the fetcher emits via
`map(value => ({value, loading: false}))`; for a batched fetcher the emitted value may
itself be `undefined`. -/
def wrapFetched (v : Option Resp) : CacheResult Resp E :=
  { loading := false, value := v, error := none }

/-! ### SubscriberMonitor-driven eviction (deleteFromCacheTimeMS) -/

inductive EvictEvent where
  | sub
  | unsub
  | elapse (d : Nat)
deriving DecidableEq, Repr

/-- State of one cache entry's eviction machinery: the SubscriberMonitor counter, the
remaining delay of a scheduled `delete this.store[key]` timeout (if any), and whether
the entry is still in the store. -/
structure EvictState where
  subCount : Int
  pendingMS : Option Nat
  present : Bool
deriving DecidableEq, Repr

/-- The eviction wiring of RxStore.init: on subscribe the counter is incremented and
`clearTimeout(clearFromStorageTimer)` cancels any scheduled deletion; on unsubscribe
the counter is decremented and, if it reached 0, a deletion is scheduled after
ttl = deleteFromCacheTimeMS; the timer deletes the entry once the delay elapses. -/
def evictStep (ttl : Nat) (s : EvictState) : EvictEvent → EvictState
  | .sub => { s with subCount := s.subCount + 1, pendingMS := none }
  | .unsub =>
    let c := s.subCount - 1
    { s with subCount := c, pendingMS := if c = 0 then some ttl else s.pendingMS }
  | .elapse d =>
    match s.pendingMS with
    | none => s
    | some r =>
      if r ≤ d then { s with pendingMS := none, present := false }
      else { s with pendingMS := some (r - d) }

def runEvict (ttl : Nat) (s : EvictState) (es : List EvictEvent) : EvictState :=
  es.foldl (evictStep ttl) s

/-- Timers are scheduled only while no subscriber is attached. -/
def EvictInv (s : EvictState) : Prop :=
  0 < s.subCount → s.pendingMS = none

/-! ### The RxStore entry map as an explicit operation-driven machine

One cache entry (source: the record stored in IRxStoreMap).  The observable built in
`init` is replay-shared (`shareReplay(1)` with no refCount), so the machine keeps:
the `ReplaySubject(1)` replay slot holding the last channel value pushed before the
first subscription (`pendingReplay`), whether the shared pipeline has subscribed
upstream (`upstreamActive` — latched on the first subscription and, with no refCount
and a never-completing subject, never released), the SubscriberMonitor count, the
number of fetcher invocations, and the raw upstream emissions. -/
structure Entry (Params T E : Type) where
  id : Nat
  params : Params
  lastFetchFailed : Bool
  pendingReplay : Option (Option (CacheResult T E))
  upstreamActive : Bool
  subCount : Int
  fetchCount : Nat
  emittedRaw : List (CacheResult T E)
deriving DecidableEq, Repr

/-- The store map (source: `protected store: IRxStoreMap`), an insertion-ordered
string-keyed object.  `nextId` models reference identity of the cached observables:
each `init` allocates a fresh one.  `aux` is the fetcher's own state (a batching
store's request buffer; Unit for a plain store). -/
structure StoreState (Params T E B : Type) where
  entries : List (String × Entry Params T E)
  nextId : Nat
  aux : B
deriving DecidableEq, Repr

/-- Constructor arguments of RxStore: the param hasher, the errorParserLogger, and the
fetcher.  `fetchEff p n b` runs the n-th fetcher invocation for a key with params `p`:
it may act on the fetcher's own state `b` and yields the emitted stream. -/
structure StoreCfg (Params T E E0 B : Type) where
  hasher : Params → String
  parseErr : E0 → E
  fetchEff : Params → Nat → B → B × FetchOutcome T E0

/-- Lookup in a string-keyed object. -/
def lookupA (l : List (String × β)) (k : String) : Option β :=
  (l.find? (fun p => p.1 == k)).map (fun p => p.2)

/-- Overwrite the value stored at an existing key. -/
def setA (l : List (String × β)) (k : String) (b : β) : List (String × β) :=
  l.map (fun p => if p.1 == k then (k, b) else p)

/-- The effect on one entry of delivering one channel value to its live pipeline: a
concrete result is appended to the upstream emissions; `undefined` makes the
switchMap subscribe networkFetchOb — `{loading: true}` followed by one fetcher
invocation through `fetcherPipeline`, whose `catchError` sets `lastFetchFailed` on
failure. -/
def processedEntry (cfg : StoreCfg Params T E E0 B) (aux : B) (e : Entry Params T E) :
    Option (CacheResult T E) → Entry Params T E
  | some v => { e with emittedRaw := e.emittedRaw ++ [v] }
  | none =>
    let res := cfg.fetchEff e.params e.fetchCount aux
    let fp := fetcherPipeline cfg.parseErr res.2
    { e with
      fetchCount := e.fetchCount + 1,
      lastFetchFailed := if res.2.failure.isSome then true else e.lastFetchFailed,
      emittedRaw :=
        e.emittedRaw ++ { loading := true, value := none, error := none } :: fp.1 }

/-- The fetcher-state part of the same delivery: a fetch invocation may act on the
fetcher's own state; a locally injected value does not. -/
def processedAux (cfg : StoreCfg Params T E E0 B) (aux : B) (e : Entry Params T E) :
    Option (CacheResult T E) → B
  | some _ => aux
  | none => (cfg.fetchEff e.params e.fetchCount aux).1

/-- Deliver one channel value to the live pipeline of entry `k`. -/
def processChannelValue (cfg : StoreCfg Params T E E0 B) (s : StoreState Params T E B)
    (k : String) (x : Option (CacheResult T E)) : StoreState Params T E B :=
  match lookupA s.entries k with
  | none => s
  | some e =>
    { s with
      aux := processedAux cfg s.aux e x,
      entries := setA s.entries k (processedEntry cfg s.aux e x) }

/-- `updateValueRS.next(x)` on entry `k`: processed immediately while the shared
pipeline is subscribed; before the first subscription the ReplaySubject(1) merely
replaces its replay slot. -/
def pushChannel (cfg : StoreCfg Params T E E0 B) (s : StoreState Params T E B)
    (k : String) (x : Option (CacheResult T E)) : StoreState Params T E B :=
  match lookupA s.entries k with
  | none => s
  | some e =>
    if e.upstreamActive then processChannelValue cfg s k x
    else { s with entries := setA s.entries k { e with pendingReplay := some x } }

/-- RxStore.init: a no-op when the key already has an entry; otherwise builds the
entry (`updateValueRS.next(undefined)` fills the replay slot) without fetching. -/
def initEntry (cfg : StoreCfg Params T E E0 B) (s : StoreState Params T E B)
    (p : Params) : StoreState Params T E B :=
  let k := cfg.hasher p
  match lookupA s.entries k with
  | some _ => s
  | none =>
    { s with
      entries := s.entries ++
        [(k, { id := s.nextId, params := p, lastFetchFailed := false,
               pendingReplay := some none, upstreamActive := false, subCount := 0,
               fetchCount := 0, emittedRaw := [] })],
      nextId := s.nextId + 1 }

/-- RxStore._getStore: init, then `if (options.force || store[key].lastFetchFailed)
updateValueRS.next(undefined)`; the entry's shared observable is returned. -/
def getStoreStep (cfg : StoreCfg Params T E E0 B) (s : StoreState Params T E B)
    (p : Params) (force : Bool) : StoreState Params T E B :=
  let s1 := initEntry cfg s p
  let k := cfg.hasher p
  match lookupA s1.entries k with
  | none => s1
  | some e => if force || e.lastFetchFailed then pushChannel cfg s1 k none else s1

/-- A consumer subscribes to the observable returned for `p`.  The first subscription
makes shareReplay subscribe upstream, which drains the ReplaySubject's replay slot;
later subscriptions only bump the SubscriberMonitor counter. -/
def subscribeStep (cfg : StoreCfg Params T E E0 B) (s : StoreState Params T E B)
    (p : Params) : StoreState Params T E B :=
  let k := cfg.hasher p
  match lookupA s.entries k with
  | none => s
  | some e =>
    if e.upstreamActive then
      { s with entries := setA s.entries k { e with subCount := e.subCount + 1 } }
    else
      let e1 : Entry Params T E :=
        { e with subCount := e.subCount + 1, upstreamActive := true,
                 pendingReplay := none }
      let s1 : StoreState Params T E B := { s with entries := setA s.entries k e1 }
      match e.pendingReplay with
      | some x => processChannelValue cfg s1 k x
      | none => s1

/-- A consumer unsubscribes.  shareReplay(1) carries no refCount, so the upstream
subscription stays latched; only the SubscriberMonitor counter drops. -/
def unsubscribeStep (cfg : StoreCfg Params T E E0 B) (s : StoreState Params T E B)
    (p : Params) : StoreState Params T E B :=
  let k := cfg.hasher p
  match lookupA s.entries k with
  | none => s
  | some e =>
    { s with entries := setA s.entries k { e with subCount := e.subCount - 1 } }

/-- RxStore.updateStoreValue: init, then push
`{error: undefined, loading: false, value}` on the channel. -/
def updateStoreValueStep (cfg : StoreCfg Params T E E0 B) (s : StoreState Params T E B)
    (p : Params) (v : T) : StoreState Params T E B :=
  let s1 := initEntry cfg s p
  pushChannel cfg s1 (cfg.hasher p) (some { loading := false, value := some v, error := none })

/-- RxStore.expireAll: `Object.keys(this.store).forEach(key => expireKey(key))`, i.e.
push `undefined` on every entry's channel in insertion order. -/
def expireAllStep (cfg : StoreCfg Params T E E0 B) (s : StoreState Params T E B) :
    StoreState Params T E B :=
  (s.entries.map (fun p => p.1)).foldl (fun st k => pushChannel cfg st k none) s

inductive StoreOp (Params T : Type) where
  | getStore (p : Params) (force : Bool)
  | subscribe (p : Params)
  | unsubscribe (p : Params)
  | updateStoreValue (p : Params) (v : T)
  | expireAll
deriving DecidableEq, Repr

def stepStore (cfg : StoreCfg Params T E E0 B) (s : StoreState Params T E B) :
    StoreOp Params T → StoreState Params T E B
  | .getStore p force => getStoreStep cfg s p force
  | .subscribe p => subscribeStep cfg s p
  | .unsubscribe p => unsubscribeStep cfg s p
  | .updateStoreValue p v => updateStoreValueStep cfg s p v
  | .expireAll => expireAllStep cfg s

def runStore (cfg : StoreCfg Params T E E0 B) (ops : List (StoreOp Params T))
    (s : StoreState Params T E B) : StoreState Params T E B :=
  ops.foldl (stepStore cfg) s

def storeInit (b : B) : StoreState Params T E B := ⟨[], 0, b⟩

/-- Operations that neither force nor invalidate (the scope of the at-most-one-fetch
guarantee: anything except `force: true` and expireAll/expireWhere). -/
def nonInvalidatingOp : StoreOp Params T → Bool
  | .getStore _ force => !force
  | .subscribe _ => true
  | .unsubscribe _ => true
  | .updateStoreValue _ _ => true
  | .expireAll => false

/-- Invariant of the entry stored under the hashed key `kh` while only
non-invalidating operations run and its fetcher never fails: the stored params hash
to the key, no fetch has failed, at most one fetch has run, and none before the
first subscription. -/
def C1Inv (cfg : StoreCfg Params T E E0 B) (kh : String)
    (s : StoreState Params T E B) : Prop :=
  ∀ e, lookupA s.entries kh = some e →
    cfg.hasher e.params = kh ∧ e.lastFetchFailed = false ∧ e.fetchCount ≤ 1 ∧
      (e.upstreamActive = false → e.fetchCount = 0)

/-! ### The batching layer on top of the store machine -/

/-- Fetcher-side state of RxBatchingStore: the requests buffered by bufferTime in the
current window, and the argument lists of the collective fetch calls made so far. -/
structure BatchAux (Params : Type) where
  buffer : List Params
  calls : List (List Params)
deriving DecidableEq, Repr

/-- RxBatchingStore.fetch as the store's fetcher: subscribing it emits the request
into the shared request channel (`requestSubject.next`); the per-key values are
delivered when the window's collective result arrives (their dispatch is modelled by
batchedPerKeyStream).  This machine tracks the request flow. -/
def batchFetchEff (p : Params) (_n : Nat) (b : BatchAux Params) :
    BatchAux Params × FetchOutcome T E0 :=
  ({ b with buffer := b.buffer ++ [p] }, ⟨[], none⟩)

/-- One bufferTime tick: the buffered window is cut and handed to fetchBatch, whose
single collective call receives the hash-de-duplicated request list.  Ticks with an
empty buffer produce a window that serves no waiter and make no call that any claim
concerns. -/
def batchTick [DecidableEq Params] (hash : Params → String) (b : BatchAux Params) :
    BatchAux Params :=
  if b.buffer.isEmpty then b
  else { buffer := [], calls := b.calls ++ [uniqByKey hash b.buffer] }

inductive BatchOp (Params T : Type) where
  | store (op : StoreOp Params T)
  | tick
deriving DecidableEq, Repr

def stepBatch [DecidableEq Params]
    (cfg : StoreCfg Params T E E0 (BatchAux Params))
    (s : StoreState Params T E (BatchAux Params)) :
    BatchOp Params T → StoreState Params T E (BatchAux Params)
  | .store op => stepStore cfg s op
  | .tick => { s with aux := batchTick cfg.hasher s.aux }

def runBatch [DecidableEq Params]
    (cfg : StoreCfg Params T E E0 (BatchAux Params))
    (ops : List (BatchOp Params T))
    (s : StoreState Params T E (BatchAux Params)) :
    StoreState Params T E (BatchAux Params) :=
  ops.foldl (stepBatch cfg) s

/-! ### Concrete instantiations used to evaluate the model on the scenarios of the
spec's testable properties -/

/-- JS truthiness of a number: 0 (and NaN) is falsy. -/
def truthyNat (n : Nat) : Bool := n != 0

/-- JS truthiness of a string: the empty string is falsy. -/
def truthyStr (s : String) : Bool := !s.isEmpty

/-- A batching store over string keys (identity hashing, passthrough error parser),
tracking its request buffer and collective calls. -/
def batchScenarioCfg : StoreCfg String Nat String String (BatchAux String) :=
  { hasher := id, parseErr := id, fetchEff := batchFetchEff }

/-- The README batching scenario: keys a, b, c requested and subscribed within one
buffering window; a tick; the only waiter for b unsubscribes; expireAll; a tick. -/
def expireScenarioOps : List (BatchOp String Nat) :=
  [.store (.getStore "a" false), .store (.subscribe "a"),
   .store (.getStore "b" false), .store (.subscribe "b"),
   .store (.getStore "c" false), .store (.subscribe "c"),
   .tick,
   .store (.unsubscribe "b"),
   .store .expireAll,
   .tick]

/-- A plain store whose fetcher fails on its first invocation per key and succeeds
afterwards. -/
def failThenOkCfg : StoreCfg String Nat String String Unit :=
  { hasher := id, parseErr := id,
    fetchEff := fun _ n _ => ((), if n = 0 then ⟨[], some "boom"⟩ else ⟨[7], none⟩) }

/-- A plain store whose fetcher always succeeds with a single value. -/
def alwaysOkCfg : StoreCfg String Nat String String Unit :=
  { hasher := id, parseErr := id, fetchEff := fun _ _ _ => ((), ⟨[42], none⟩) }

/-- The entry the alwaysOkCfg store holds for "k" after one subscription and two
repeat getStore calls (used as the concrete C1 witness). -/
def c1WitnessEntry : Entry String Nat String :=
  { id := 0, params := "k", lastFetchFailed := false, pendingReplay := none,
    upstreamActive := true, subCount := 2, fetchCount := 1,
    emittedRaw := [⟨true, none, none⟩, ⟨false, some 42, none⟩] }

/-!
## Theorems

First the general lemmas about the embedded operators, then one theorem per claim
(with a witness where the theorem carries hypotheses).
-/

/-! ### Eviction lemmas -/

theorem evictStep_present_cases (ttl : Nat) (s : EvictState) (e : EvictEvent) :
    (evictStep ttl s e).present = s.present ∨ (evictStep ttl s e).present = false := by
  cases e with
  | sub => left; rfl
  | unsub => left; rfl
  | elapse d =>
    simp only [evictStep]
    cases h : s.pendingMS with
    | none => left; rfl
    | some r =>
      by_cases hle : r ≤ d
      · right; simp [hle]
      · left; simp [hle]

theorem runEvict_present_false (ttl : Nat) (es : List EvictEvent) :
    ∀ s : EvictState, s.present = false → (runEvict ttl s es).present = false := by
  induction es with
  | nil => intro s h; exact h
  | cons e es ih =>
    intro s h
    have hs : runEvict ttl s (e :: es) = runEvict ttl (evictStep ttl s e) es := rfl
    rw [hs]
    apply ih
    rcases evictStep_present_cases ttl s e with h1 | h1
    · rw [h1, h]
    · exact h1

theorem runEvict_elapses_delete (ttl : Nat) :
    ∀ (ds : List Nat) (r : Nat) (s : EvictState), s.pendingMS = some r → 0 < r →
      r ≤ ds.sum → (runEvict ttl s (ds.map .elapse)).present = false := by
  intro ds
  induction ds with
  | nil =>
    intro r s h1 h2 h3
    simp only [List.sum_nil, Nat.le_zero] at h3
    omega
  | cons d ds ih =>
    intro r s h1 h2 h3
    have hs : runEvict ttl s ((d :: ds).map .elapse) =
        runEvict ttl (evictStep ttl s (.elapse d)) (ds.map .elapse) := rfl
    rw [hs]
    simp only [evictStep, h1]
    by_cases hle : r ≤ d
    · simp only [hle, if_true]
      exact runEvict_present_false ttl _ _ rfl
    · simp only [hle, if_false]
      refine ih (r - d) _ rfl (by omega) ?_
      simp only [List.sum_cons] at h3
      omega

theorem runEvict_elapses_retain (ttl : Nat) :
    ∀ (ds : List Nat) (r : Nat) (s : EvictState), s.pendingMS = some r → ds.sum < r →
      runEvict ttl s (ds.map .elapse) = { s with pendingMS := some (r - ds.sum) } := by
  intro ds
  induction ds with
  | nil =>
    intro r s h1 _
    cases s
    simp only [runEvict, List.map_nil, List.foldl_nil, List.sum_nil, Nat.sub_zero]
    simp_all
  | cons d ds ih =>
    intro r s h1 h2
    simp only [List.sum_cons] at h2
    have hs : runEvict ttl s ((d :: ds).map .elapse) =
        runEvict ttl (evictStep ttl s (.elapse d)) (ds.map .elapse) := rfl
    rw [hs]
    have hstep : evictStep ttl s (.elapse d) = { s with pendingMS := some (r - d) } := by
      simp only [evictStep, h1]
      have : ¬ r ≤ d := by omega
      simp [this]
    rw [hstep, ih (r - d) _ rfl (by omega)]
    simp only [List.sum_cons, Nat.sub_sub]

/-- C9: with a cache TTL configured, the entry of a key whose last subscriber
unsubscribes is deleted once the TTL elapses un-resubscribed; a new subscriber
attaching before the TTL elapses cancels the pending deletion and the entry is
retained; and (via the invariant that a deletion timer is only pending while the
observer count is 0) an entry with at least one live observer is never evicted. -/
theorem ttl_eviction_behaviour (ttl : Nat) (s s2 : EvictState) (ds ds2 : List Nat)
    (e : EvictEvent) (hpos : 0 < ttl) (hc : s.subCount = 1) (hp : s.pendingMS = none)
    (hsum : ttl ≤ ds.sum) (hsum2 : ds2.sum < ttl)
    (hinv : EvictInv s2) (hlive : 0 < s2.subCount) :
    (runEvict ttl s (.unsub :: ds.map .elapse)).present = false
    ∧ runEvict ttl s (.unsub :: (ds2.map .elapse ++ [.sub])) =
        { subCount := 1, pendingMS := none, present := s.present }
    ∧ EvictInv (evictStep ttl s2 e)
    ∧ (evictStep ttl s2 e).present = s2.present := by
  have hunsub : evictStep ttl s .unsub = { s with subCount := 0, pendingMS := some ttl } := by
    simp [evictStep, hc]
  refine ⟨?_, ?_, ?_, ?_⟩
  · have hs : runEvict ttl s (.unsub :: ds.map .elapse) =
        runEvict ttl (evictStep ttl s .unsub) (ds.map .elapse) := rfl
    rw [hs, hunsub]
    exact runEvict_elapses_delete ttl ds ttl _ rfl hpos hsum
  · have hs : runEvict ttl s (.unsub :: (ds2.map .elapse ++ [.sub])) =
        runEvict ttl (evictStep ttl s .unsub) (ds2.map .elapse ++ [.sub]) := rfl
    rw [hs, hunsub]
    have happ : runEvict ttl { s with subCount := 0, pendingMS := some ttl }
          (ds2.map .elapse ++ [.sub]) =
        runEvict ttl (runEvict ttl { s with subCount := 0, pendingMS := some ttl }
          (ds2.map .elapse)) [.sub] := by
      simp [runEvict, List.foldl_append]
    rw [happ, runEvict_elapses_retain ttl ds2 ttl _ rfl hsum2]
    simp [runEvict, evictStep]
  · have hpend : s2.pendingMS = none := hinv hlive
    intro hpos2
    cases e with
    | sub => rfl
    | unsub =>
      simp only [evictStep] at hpos2 ⊢
      have h0 : ¬ s2.subCount - 1 = 0 := by omega
      simp only [h0, if_false]
      exact hpend
    | elapse d => simp [evictStep, hpend]
  · cases e with
    | sub => rfl
    | unsub => rfl
    | elapse d => simp [evictStep, hinv hlive]

/-- Witness for C9: ttl 5, one subscriber unsubscribing; deletion after 5ms elapse,
retention when a subscriber returns after 3ms; a two-subscriber entry survives a
10ms elapse. -/
theorem ttl_eviction_behaviour_witness :
    (runEvict 5 ⟨1, none, true⟩ [.unsub, .elapse 5]).present = false
    ∧ runEvict 5 ⟨1, none, true⟩ [.unsub, .elapse 3, .sub] = ⟨1, none, true⟩
    ∧ EvictInv (evictStep 5 ⟨2, none, true⟩ (.elapse 10))
    ∧ (evictStep 5 ⟨2, none, true⟩ (.elapse 10)).present = true := by
  have h := ttl_eviction_behaviour 5 ⟨1, none, true⟩ ⟨2, none, true⟩ [5] [3] (.elapse 10)
    (by decide) rfl rfl (by decide) (by decide) (fun _ => rfl) (by decide)
  exact ⟨h.1, h.2.1, h.2.2.1, h.2.2.2⟩

/-! ### C4 and C7: evaluations of the model at the failing inputs -/

/-- C4 (code bug): `distinctUntilKeyChanged("loading")` compares only the `loading`
field, so a combined emission whose contents changed while `loading` stayed the same
is suppressed.  Concrete run: two keys, the first key's value arrives while the
second is still loading — the combined sequence contains
`{loading: true, value: [1]}`, but the delivered sequence skips it (the README's
getStores section promises updates are emitted as the values come in). -/
theorem getStores_contents_only_update_suppressed :
    ((combineLatestTrace
        [[({ loading := true, value := none, error := none } : CacheResult Nat String),
          { loading := false, value := some 1, error := none }],
         [{ loading := true, value := none, error := none },
          { loading := false, value := some 2, error := none }]]
        [0, 1, 0, 1]).map (combineStores truthyNat truthyStr)) =
      [{ loading := true, value := [], error := [] },
       { loading := true, value := [1], error := [] },
       { loading := false, value := [1, 2], error := [] }]
    ∧ getStoresModel truthyNat truthyStr
        [[{ loading := true, value := none, error := none },
          { loading := false, value := some 1, error := none }],
         [{ loading := true, value := none, error := none },
          { loading := false, value := some 2, error := none }]]
        [0, 1, 0, 1] =
      [{ loading := true, value := [], error := [] },
       { loading := false, value := [1, 2], error := [] }]
    ∧ ({ loading := true, value := [1], error := [] } : IRxStores Nat String) ∉
        getStoresModel truthyNat truthyStr
          [[{ loading := true, value := none, error := none },
            { loading := false, value := some 1, error := none }],
           [{ loading := true, value := none, error := none },
            { loading := false, value := some 2, error := none }]]
          [0, 1, 0, 1] := by
  refine ⟨by decide, by decide, by decide⟩

/-- C7 (code bug): in the README scenario — a, b, c requested in one window, then
the only waiter for b unsubscribes, then expireAll — the second collective fetch
still covers b, because the entry pipeline built with `shareReplay(1)` (no refCount)
stays subscribed to the invalidation channel after its last consumer leaves.  The
README promises a collective fetch covering only the still-subscribed keys (a, c). -/
theorem expireAll_refetches_unsubscribed_key :
    (runBatch batchScenarioCfg expireScenarioOps (storeInit ⟨[], []⟩)).aux.calls =
      [["a", "b", "c"], ["a", "b", "c"]]
    ∧ "b" ∈ ((runBatch batchScenarioCfg expireScenarioOps
        (storeInit ⟨[], []⟩)).aux.calls.getD 1 []) := by
  refine ⟨by decide, by decide⟩

/-! ### De-duplication lemmas (C6) -/

theorem uniqByKeyGo_subset [DecidableEq κ] (f : α → κ) :
    ∀ (l : List α) (seen : List κ), uniqByKeyGo f seen l ⊆ l := by
  intro l
  induction l with
  | nil => intro seen; simp [uniqByKeyGo]
  | cons x xs ih =>
    intro seen
    simp only [uniqByKeyGo]
    split
    · exact (ih seen).trans (List.subset_cons_self x xs)
    · exact List.cons_subset_cons x (ih (f x :: seen))

theorem uniqByKeyGo_first [DecidableEq κ] (f : α → κ) :
    ∀ (l : List α) (seen : List κ) (u : α), u ∈ uniqByKeyGo f seen l →
      f u ∉ seen ∧ l.find? (fun y => f y == f u) = some u := by
  intro l
  induction l with
  | nil => intro seen u hu; simp [uniqByKeyGo] at hu
  | cons x xs ih =>
    intro seen u hu
    simp only [uniqByKeyGo] at hu
    split at hu
    case isTrue hmem =>
      obtain ⟨h1, h2⟩ := ih seen u hu
      have hne : (f x == f u) = false := by
        simp only [beq_eq_false_iff_ne, ne_eq]
        intro he
        exact h1 (he ▸ hmem)
      exact ⟨h1, by simp [List.find?_cons, hne, h2]⟩
    case isFalse hmem =>
      rcases List.mem_cons.mp hu with rfl | hu2
      · exact ⟨hmem, by simp [List.find?_cons]⟩
      · obtain ⟨h1, h2⟩ := ih (f x :: seen) u hu2
        have hxu : f x ≠ f u := by
          intro he
          exact h1 (by rw [← he]; exact List.mem_cons_self _ _)
        have hne : (f x == f u) = false := by
          simp only [beq_eq_false_iff_ne, ne_eq]
          exact hxu
        refine ⟨fun hs => h1 (List.mem_cons_of_mem _ hs), ?_⟩
        simp [List.find?_cons, hne, h2]

theorem uniqByKeyGo_nodup [DecidableEq κ] (f : α → κ) :
    ∀ (l : List α) (seen : List κ), ((uniqByKeyGo f seen l).map f).Nodup := by
  intro l
  induction l with
  | nil => intro seen; simp [uniqByKeyGo]
  | cons x xs ih =>
    intro seen
    simp only [uniqByKeyGo]
    split
    · exact ih seen
    · simp only [List.map_cons, List.nodup_cons]
      constructor
      · intro hmem
        obtain ⟨u, hu, he⟩ := List.mem_map.mp hmem
        have h1 := (uniqByKeyGo_first f xs (f x :: seen) u hu).1
        exact h1 (by rw [he]; exact List.mem_cons_self _ _)
      · exact ih (f x :: seen)

theorem uniqByKeyGo_cover [DecidableEq κ] (f : α → κ) :
    ∀ (l : List α) (seen : List κ) (r : α), r ∈ l →
      f r ∈ seen ∨ ∃ u ∈ uniqByKeyGo f seen l, f u = f r := by
  intro l
  induction l with
  | nil => intro seen r hr; simp at hr
  | cons x xs ih =>
    intro seen r hr
    rcases List.mem_cons.mp hr with rfl | hr2
    · by_cases hx : f r ∈ seen
      · exact Or.inl hx
      · right
        refine ⟨r, ?_, rfl⟩
        simp [uniqByKeyGo, hx]
    · by_cases hx : f x ∈ seen
      · rcases ih seen r hr2 with h | ⟨u, hu, he⟩
        · exact Or.inl h
        · right
          refine ⟨u, ?_, he⟩
          simp [uniqByKeyGo, hx, hu]
      · rcases ih (f x :: seen) r hr2 with h | ⟨u, hu, he⟩
        · rcases List.mem_cons.mp h with he | hseen
          · right
            refine ⟨x, ?_, he.symm⟩
            simp [uniqByKeyGo, hx]
          · exact Or.inl hseen
        · right
          refine ⟨u, ?_, he⟩
          simp only [uniqByKeyGo, hx, if_false]
          exact List.mem_cons_of_mem _ hu

/-- C6: for every batch window, the single collective fetch call receives exactly the
de-duplicated request list — each argument element is the first buffered occurrence
of its hash, carrying that occurrence's extra, and the argument's hashes are pairwise
distinct while still covering every buffered request — and the window records the
hashes of all buffered requests, so every original caller matches the window. -/
theorem batch_window_dedup_first_wins [DecidableEq Req2] (hash : Req → String)
    (reqs : List (ReqWithExtra Req Extra)) (r u : ReqWithExtra Req Extra)
    (hash2 : Req2 → String) (b : BatchAux Req2)
    (hr : r ∈ reqs) (hu : u ∈ (fetchBatchM hash reqs).fetchArg) (hb : b.buffer ≠ []) :
    hash r.request ∈ (fetchBatchM hash reqs).requestHashes
    ∧ reqs.find? (fun x => hash x.request == hash u.request) = some u
    ∧ ((fetchBatchM hash reqs).fetchArg.map (fun x => hash x.request)).Nodup
    ∧ (fetchBatchM hash reqs).fetchArg.any (fun w => hash w.request == hash r.request) = true
    ∧ (batchTick hash2 b).calls = b.calls ++ [uniqByKey hash2 b.buffer]
    ∧ (batchTick hash2 b).buffer = [] := by
  have hemp : b.buffer.isEmpty = false := by
    cases hbuf : b.buffer with
    | nil => exact absurd hbuf hb
    | cons y ys => rfl
  simp only [fetchBatchM, uniqByKey] at hu ⊢
  refine ⟨?_, ?_, ?_, ?_, ?_, ?_⟩
  · exact List.mem_map_of_mem _ hr
  · exact (uniqByKeyGo_first (fun x => hash x.request) reqs [] u hu).2
  · exact uniqByKeyGo_nodup (fun x => hash x.request) reqs []
  · rcases uniqByKeyGo_cover (fun x => hash x.request) reqs [] r hr with h | ⟨w, hw, he⟩
    · simp at h
    · exact List.any_eq_true.mpr ⟨w, hw, by simp [he]⟩
  · simp [batchTick, hemp, uniqByKey]
  · simp [batchTick, hemp]

/-- Witness for C6: a window buffering requests for a, b, a (with distinct extras). -/
theorem batch_window_dedup_first_wins_witness :
    ("a" : String) ∈ (fetchBatchM (id : String → String)
      [⟨"a", some 1⟩, ⟨"b", some 2⟩, ⟨"a", some 3⟩]).requestHashes
    ∧ [(⟨"a", some 1⟩ : ReqWithExtra String Nat), ⟨"b", some 2⟩, ⟨"a", some 3⟩].find?
        (fun x => id x.request == id (⟨"b", some 2⟩ : ReqWithExtra String Nat).request) =
        some ⟨"b", some 2⟩
    ∧ ((fetchBatchM (id : String → String)
        [⟨"a", some 1⟩, ⟨"b", some 2⟩, ⟨"a", some 3⟩]).fetchArg.map
          (fun x => id x.request)).Nodup
    ∧ (fetchBatchM (id : String → String)
        [⟨"a", some 1⟩, ⟨"b", some 2⟩, ⟨"a", some 3⟩]).fetchArg.any
          (fun w => id w.request == id (⟨"a", some 3⟩ : ReqWithExtra String Nat).request) = true
    ∧ (batchTick (id : String → String) ⟨["x", "y", "x"], []⟩).calls =
        ([] : List (List String)) ++ [uniqByKey (id : String → String) ["x", "y", "x"]]
    ∧ (batchTick (id : String → String) ⟨["x", "y", "x"], []⟩).buffer = [] := by
  have h := batch_window_dedup_first_wins (id : String → String)
    [⟨"a", some 1⟩, ⟨"b", some 2⟩, ⟨"a", some 3⟩]
    ⟨"a", some 3⟩ ⟨"b", some 2⟩ (id : String → String) ⟨["x", "y", "x"], []⟩
    (by decide) (by decide) (by decide)
  exact h

/-- C8: a batched per-key request whose hash is absent from the collective results
emits the value `undefined` — delivered to the consumer as a normal non-loading
CacheResult — rather than erroring or never emitting; a result entry carrying an
error makes the per-key stream fail with that error; otherwise the entry's response
is emitted. -/
theorem batch_missing_result_emits_undefined (E1 : Type) (hash : Req → String)
    (results : List (BatchSingleResponse Resp Req E0)) (h h2 h3 : String)
    (r2 r3 : BatchSingleResponse Resp Req E0) (e : E0)
    (hab : h ∉ results.map (fun x => hash x.request))
    (h2some : keyByLookup hash results h2 = some r2) (h2err : r2.error = some e)
    (h3some : keyByLookup hash results h3 = some r3) (h3err : r3.error = none) :
    batchedPerKeyStream hash results h = ([none], none)
    ∧ (batchedPerKeyStream hash results h).1.map (wrapFetched (E := E1)) =
        [{ loading := false, value := none, error := none }]
    ∧ batchedPerKeyStream hash results h2 = ([], some e)
    ∧ batchedPerKeyStream hash results h3 = ([some r3.response], none) := by
  have habs : keyByLookup hash results h = none := by
    apply List.find?_eq_none.mpr
    intro x hx
    simp only [beq_eq_false_iff_ne, ne_eq, beq_iff_eq]
    intro he
    exact hab (List.mem_map.mpr ⟨x, List.mem_reverse.mp hx, he⟩)
  refine ⟨?_, ?_, ?_, ?_⟩
  · simp [batchedPerKeyStream, habs, dispatchResult]
  · simp [batchedPerKeyStream, habs, dispatchResult, wrapFetched]
  · simp [batchedPerKeyStream, h2some, dispatchResult, h2err]
  · simp [batchedPerKeyStream, h3some, dispatchResult, h3err]

/-- Witness for C8: a two-entry result set, looked up at an absent hash, an errored
entry, and a successful entry. -/
theorem batch_missing_result_emits_undefined_witness :
    batchedPerKeyStream (id : String → String)
      [⟨"r1", 10, none⟩, ⟨"r2", 0, some "e"⟩] "zz" = ([none], none)
    ∧ (batchedPerKeyStream (id : String → String)
        [⟨"r1", 10, none⟩, ⟨"r2", 0, some "e"⟩] "zz").1.map (wrapFetched (E := String)) =
        [{ loading := false, value := none, error := none }]
    ∧ batchedPerKeyStream (id : String → String)
        [⟨"r1", 10, none⟩, ⟨"r2", 0, some "e"⟩] "r2" = ([], some "e")
    ∧ batchedPerKeyStream (id : String → String)
        [⟨"r1", 10, none⟩, ⟨"r2", 0, some "e"⟩] "r1" =
        ([some (⟨"r1", 10, none⟩ : BatchSingleResponse Nat String String).response], none) := by
  exact batch_missing_result_emits_undefined String (id : String → String)
    [⟨"r1", 10, none⟩, ⟨"r2", 0, some "e"⟩] "zz" "r2" "r1"
    ⟨"r2", 0, some "e"⟩ ⟨"r1", 10, none⟩ "e"
    (by decide) (by decide) rfl (by decide) rfl

/-! ### Fetch pipeline lemmas (C2, C3) -/

theorem fetcherPipeline_fst_ok (parse : E0 → E) (fo : FetchOutcome T E0)
    (h : fo.failure = none) :
    (fetcherPipeline parse fo).1 =
      fo.values.map (fun v => { loading := false, value := some v, error := none }) := by
  simp [fetcherPipeline, mapStreamOp, catchErrorOp, h]

theorem fetcherPipeline_fst_fail (parse : E0 → E) (fo : FetchOutcome T E0) (err : E0)
    (h : fo.failure = some err) :
    (fetcherPipeline parse fo).1 =
      fo.values.map (fun v => { loading := false, value := some v, error := none }) ++
        [{ loading := false, value := none, error := some (parse err) }] := by
  simp [fetcherPipeline, mapStreamOp, catchErrorOp, h]

theorem fetcherPipeline_snd (parse : E0 → E) (fo : FetchOutcome T E0) :
    (fetcherPipeline parse fo).2 = none := by
  cases h : fo.failure with
  | none => simp [fetcherPipeline, mapStreamOp, catchErrorOp, h]
  | some e => simp [fetcherPipeline, mapStreamOp, catchErrorOp, h]

theorem refetchGo_cons_none (parse : E0 → E) (outcomes : Nat → FetchOutcome T E0)
    (n : Nat) (rest : List (Option (CacheResult T E))) :
    refetchGo parse outcomes n (none :: rest) =
      ⟨({ loading := true, value := none, error := none } ::
          (fetcherPipeline parse (outcomes n)).1) ++
          (refetchGo parse outcomes (n + 1) rest).emissions,
        (refetchGo parse outcomes (n + 1) rest).rawTerminal,
        (refetchGo parse outcomes (n + 1) rest).nextFetch⟩ := by
  simp only [refetchGo, fetcherPipeline_snd]

theorem refetchGo_rawTerminal_none (parse : E0 → E) (outcomes : Nat → FetchOutcome T E0) :
    ∀ (q : List (Option (CacheResult T E))) (n : Nat),
      (refetchGo parse outcomes n q).rawTerminal = none := by
  intro q
  induction q with
  | nil => intro n; rfl
  | cons x rest ih =>
    intro n
    cases x with
    | some v => simpa [refetchGo] using ih n
    | none => rw [refetchGo_cons_none]; exact ih (n + 1)

theorem pairwiseMergeGo_truthy_run (tT : T → Bool) (tE : E → Bool) :
    ∀ (vs : List T) (prev : Option (CacheResult T E)), vs.all tT = true →
      pairwiseMergeGo tT tE prev
          (vs.map (fun v => { loading := false, value := some v, error := none })) =
        vs.map (fun v => { loading := false, value := some v, error := none }) := by
  intro vs
  induction vs with
  | nil => intro prev _; rfl
  | cons v vs ih =>
    intro prev hall
    simp only [List.all_cons, Bool.and_eq_true] at hall
    simp only [List.map_cons, pairwiseMergeGo, jsOr, jsTruthyOpt, hall.1, if_true]
    rw [ih _ hall.2]
    simp [jsTruthyOpt]

theorem pairwiseMergeGo_fields (tT : T → Bool) (tE : E → Bool) :
    ∀ (l : List (CacheResult T E)) (prev : Option (CacheResult T E)),
      List.Forall₂
        (fun r m => m.loading = r.loading ∧
          m.error = (if jsTruthyOpt tE r.error then r.error else none))
        l (pairwiseMergeGo tT tE prev l) := by
  intro l
  induction l with
  | nil => intro prev; exact List.Forall₂.nil
  | cons nv rest ih =>
    intro prev
    exact List.Forall₂.cons ⟨rfl, rfl⟩ (ih (some nv))

theorem forall2_mem_left {R : α → β → Prop} :
    ∀ {l₁ : List α} {l₂ : List β}, List.Forall₂ R l₁ l₂ → ∀ a ∈ l₁, ∃ b ∈ l₂, R a b := by
  intro l₁ l₂ h
  induction h with
  | nil => intro a ha; simp at ha
  | @cons x y xs ys hr _ ih =>
    intro a ha
    rcases List.mem_cons.mp ha with rfl | ha2
    · exact ⟨y, List.mem_cons_self _ _, hr⟩
    · obtain ⟨b, hb, hrb⟩ := ih a ha2
      exact ⟨b, List.mem_cons_of_mem _ hb, hrb⟩

/-- C2: a fetch failure is caught at the cache-entry boundary: no raw error ever
terminates the entry's processed stream; the failing fetch's emissions are the fetched
values, then one normal frame `{loading: false, value, error: parse err}` with the
error-parser output, and the stream continues with the emissions of whatever the
channel carries next (e.g. the fetch of a later force/retry). -/
theorem fetch_failure_caught_parsed_nonterminating [DecidableEq E]
    (tT : T → Bool) (tE : E → Bool)
    (parse : E0 → E) (outcomes : Nat → FetchOutcome T E0) (vals : List T) (err : E0)
    (rest q : List (Option (CacheResult T E))) (n : Nat)
    (h0 : outcomes 0 = ⟨vals, some err⟩) (htE : tE (parse err) = true) :
    (refetchGo parse outcomes n q).rawTerminal = none
    ∧ (refetchGo parse outcomes 0 (none :: rest)).emissions =
        { loading := true, value := none, error := none } ::
          (vals.map (fun v => { loading := false, value := some v, error := none }) ++
            { loading := false, value := none, error := some (parse err) } ::
              (refetchGo parse outcomes 1 rest).emissions)
    ∧ (pairwiseMerge tT tE (refetchGo parse outcomes 0 (none :: rest)).emissions).any
        (fun c => !c.loading && c.error == some (parse err)) = true := by
  have hfst : (fetcherPipeline parse (outcomes 0)).1 =
      vals.map (fun v => { loading := false, value := some v, error := none }) ++
        [{ loading := false, value := none, error := some (parse err) }] := by
    rw [fetcherPipeline_fst_fail parse (outcomes 0) err (by rw [h0])]
    rw [h0]
  have hem : (refetchGo parse outcomes 0 (none :: rest)).emissions =
      { loading := true, value := none, error := none } ::
        (vals.map (fun v => { loading := false, value := some v, error := none }) ++
          { loading := false, value := none, error := some (parse err) } ::
            (refetchGo parse outcomes 1 rest).emissions) := by
    rw [refetchGo_cons_none, hfst]
    simp
  refine ⟨refetchGo_rawTerminal_none parse outcomes q n, hem, ?_⟩
  have hmem : ({ loading := false, value := none, error := some (parse err) } :
      CacheResult T E) ∈ (refetchGo parse outcomes 0 (none :: rest)).emissions := by
    rw [hem]
    exact List.mem_cons_of_mem _ (List.mem_append_right _ (List.mem_cons_self _ _))
  obtain ⟨b, hb, hb1, hb2⟩ :=
    forall2_mem_left (pairwiseMergeGo_fields tT tE
      (refetchGo parse outcomes 0 (none :: rest)).emissions none) _ hmem
  refine List.any_eq_true.mpr ⟨b, hb, ?_⟩
  simp only [jsTruthyOpt, htE, if_true] at hb2
  simp [hb1, hb2]

/-- Witness for C2: first fetch emits 5 then fails with "boom"; the retry fetch
emits 7. -/
theorem fetch_failure_caught_parsed_nonterminating_witness :
    (refetchGo (id : String → String)
        (fun m => if m = 0 then ⟨[5], some "boom"⟩ else ⟨[7], none⟩) 0
        [none]).rawTerminal = none
    ∧ (refetchGo (id : String → String)
        (fun m => if m = 0 then ⟨[5], some "boom"⟩ else ⟨[7], none⟩) 0
        (none :: [none])).emissions =
        { loading := true, value := none, error := none } ::
          ([5].map (fun v => ({ loading := false, value := some v, error := none } :
              CacheResult Nat String)) ++
            { loading := false, value := none, error := some (id "boom") } ::
              (refetchGo (id : String → String)
                (fun m => if m = 0 then ⟨[5], some "boom"⟩ else ⟨[7], none⟩) 1
                [none]).emissions)
    ∧ (pairwiseMerge truthyNat truthyStr
        (refetchGo (id : String → String)
          (fun m => if m = 0 then ⟨[5], some "boom"⟩ else ⟨[7], none⟩) 0
          (none :: [none])).emissions).any
        (fun c => !c.loading && c.error == some (id "boom")) = true := by
  exact fetch_failure_caught_parsed_nonterminating truthyNat truthyStr
    (id : String → String)
    (fun m => if m = 0 then ⟨[5], some "boom"⟩ else ⟨[7], none⟩)
    [5] "boom" [none] [none] 0 rfl (by decide)

/-- C3 counterexample: the claim promises `{loading: false, value: v, error:
undefined}` for every fetched value v, but the pairwise merge computes the value with
the JS expression `newValue.value || previousValue.value`, so a falsy fetched value
(here the number 0, after a 1) is replaced by the previous value: the frame
`{loading: false, value: 0}` is never emitted. -/
theorem ready_value_passthrough_cex :
    pairwiseMerge truthyNat truthyStr
      (refetchGo (id : String → String) (fun _ => ⟨[1, 0], none⟩) 0 [none]).emissions =
      [{ loading := true, value := none, error := none },
       { loading := false, value := some 1, error := none },
       { loading := false, value := some 1, error := none }]
    ∧ ({ loading := false, value := some 0, error := none } : CacheResult Nat String) ∉
        pairwiseMerge truthyNat truthyStr
          (refetchGo (id : String → String) (fun _ => ⟨[1, 0], none⟩) 0 [none]).emissions := by
  refine ⟨by decide, by decide⟩

/-- C3 (amended): for a fetch whose values are all JS-truthy, the entry emits
`{loading: false, value: v, error: undefined}` for every fetched value v, in order,
after the single initial loading frame and without re-entering the loading state; and
every subscriber attached before the first value frame (replay position 0 or 1)
receives exactly the same sequence. -/
theorem ready_truthy_values_passthrough (tT : T → Bool) (tE : E → Bool)
    (parse : E0 → E) (fo : FetchOutcome T E0) (a : Nat)
    (hfail : fo.failure = none) (hvals : fo.values.all tT = true) (ha : a ≤ 1) :
    pairwiseMerge tT tE
        ({ loading := true, value := none, error := none } ::
          (fetcherPipeline parse fo).1) =
      { loading := true, value := none, error := none } ::
        fo.values.map (fun v => { loading := false, value := some v, error := none })
    ∧ subscriberView (pairwiseMerge tT tE
        ({ loading := true, value := none, error := none } ::
          (fetcherPipeline parse fo).1)) a =
      { loading := true, value := none, error := none } ::
        fo.values.map (fun v => { loading := false, value := some v, error := none }) := by
  have heq : pairwiseMerge tT tE
      ({ loading := true, value := none, error := none } ::
        (fetcherPipeline parse fo).1) =
      { loading := true, value := none, error := none } ::
        fo.values.map (fun v => { loading := false, value := some v, error := none }) := by
    rw [fetcherPipeline_fst_ok parse fo hfail]
    simp only [pairwiseMerge, pairwiseMergeGo, jsOr, jsTruthyOpt, Option.bind]
    rw [pairwiseMergeGo_truthy_run tT tE fo.values _ hvals]
    simp
  refine ⟨heq, ?_⟩
  rw [heq]
  interval_cases a
  · simp [subscriberView]
  · simp [subscriberView]

/-- Witness for C3 (amended): a fetch emitting 1 then 2, observed from replay
position 1. -/
theorem ready_truthy_values_passthrough_witness :
    pairwiseMerge truthyNat truthyStr
        ({ loading := true, value := none, error := none } ::
          (fetcherPipeline (id : String → String) ⟨[1, 2], none⟩).1) =
      { loading := true, value := none, error := none } ::
        [1, 2].map (fun v => ({ loading := false, value := some v, error := none } :
          CacheResult Nat String))
    ∧ subscriberView (pairwiseMerge truthyNat truthyStr
        ({ loading := true, value := none, error := none } ::
          (fetcherPipeline (id : String → String) ⟨[1, 2], none⟩).1)) 1 =
      { loading := true, value := none, error := none } ::
        [1, 2].map (fun v => ({ loading := false, value := some v, error := none } :
          CacheResult Nat String)) := by
  exact ready_truthy_values_passthrough truthyNat truthyStr (id : String → String)
    ⟨[1, 2], none⟩ 1 rfl (by decide) (by decide)

/-! ### combineLatest lemmas (C5) -/

theorem fa2_get_left {R : α → β → Prop} :
    ∀ {l₁ : List α} {l₂ : List β}, List.Forall₂ R l₁ l₂ →
      ∀ {i : Nat} {a : α}, l₁[i]? = some a → ∃ b, l₂[i]? = some b ∧ R a b := by
  intro l₁ l₂ h
  induction h with
  | nil => intro i a ha; simp at ha
  | @cons x y xs ys hr _ ih =>
    intro i a ha
    cases i with
    | zero =>
      simp only [List.getElem?_cons_zero, Option.some.injEq] at ha
      subst ha
      exact ⟨y, by simp, hr⟩
    | succ j =>
      simp only [List.getElem?_cons_succ] at ha ⊢
      exact ih ha

theorem fa2_get_right {R : α → β → Prop} :
    ∀ {l₁ : List α} {l₂ : List β}, List.Forall₂ R l₁ l₂ →
      ∀ {i : Nat} {b : β}, l₂[i]? = some b → ∃ a, l₁[i]? = some a ∧ R a b := by
  intro l₁ l₂ h
  induction h with
  | nil => intro i b hb; simp at hb
  | @cons x y xs ys hr _ ih =>
    intro i b hb
    cases i with
    | zero =>
      simp only [List.getElem?_cons_zero, Option.some.injEq] at hb
      subst hb
      exact ⟨x, by simp, hr⟩
    | succ j =>
      simp only [List.getElem?_cons_succ] at hb ⊢
      exact ih hb

theorem fa2_set_left {R : α → β → Prop} :
    ∀ {l₁ : List α} {l₂ : List β}, List.Forall₂ R l₁ l₂ →
      ∀ {i : Nat} {a : α} {b : β}, l₂[i]? = some b → R a b →
        List.Forall₂ R (l₁.set i a) l₂ := by
  intro l₁ l₂ h
  induction h with
  | nil => intro i a b hb _; simp at hb
  | @cons x y xs ys hr hrest ih =>
    intro i a b hb hab
    cases i with
    | zero =>
      simp only [List.getElem?_cons_zero, Option.some.injEq] at hb
      subst hb
      exact List.Forall₂.cons hab hrest
    | succ j =>
      simp only [List.getElem?_cons_succ] at hb
      exact List.Forall₂.cons hr (ih hb hab)

theorem fa2_zip {R : α → β → Prop} :
    ∀ {l₁ : List α} {l₂ : List β}, List.Forall₂ R l₁ l₂ →
      ∀ pr ∈ l₁.zip l₂, R pr.1 pr.2 := by
  intro l₁ l₂ h
  induction h with
  | nil => intro pr hpr; simp at hpr
  | @cons x y xs ys hr _ ih =>
    intro pr hpr
    rcases List.mem_cons.mp hpr with rfl | hpr2
    · exact hr
    · exact ih pr hpr2

theorem seqOptions_forall2 :
    ∀ {l : List (Option α)} {snap : List α}, seqOptions l = some snap →
      List.Forall₂ (fun o v => o = some v) l snap := by
  intro l
  induction l with
  | nil =>
    intro snap h
    simp only [seqOptions, Option.some.injEq] at h
    subst h
    exact List.Forall₂.nil
  | cons o rest ih =>
    intro snap h
    cases o with
    | none => simp [seqOptions] at h
    | some v =>
      simp only [seqOptions, Option.map_eq_some'] at h
      obtain ⟨tail, htail, rfl⟩ := h
      exact List.Forall₂.cons rfl (ih htail)

theorem fa2_compose :
    ∀ {latest : List (Option α)} {snap : List α} {streams : List (List α)},
      List.Forall₂ (fun o v => o = some v) latest snap →
      List.Forall₂ (fun o full => ∀ v, o = some v → v ∈ full) latest streams →
      List.Forall₂ (fun c l => c ∈ l) snap streams := by
  intro latest snap streams h1 h2
  induction h1 generalizing streams with
  | nil => cases h2; exact List.Forall₂.nil
  | @cons o v os vs hr _ ih =>
    cases h2 with
    | cons hr2 h2rest => exact List.Forall₂.cons (hr2 _ hr) (ih h2rest)

/-- Every snapshot combineLatest emits pairs each constituent position with an
emission of that constituent stream. -/
theorem combineLatestGo_mem (streams : List (List α)) :
    ∀ (sched : List Nat) (remaining : List (List α)) (latest : List (Option α)),
      List.Forall₂ (fun rem full => rem ⊆ full) remaining streams →
      List.Forall₂ (fun o full => ∀ v, o = some v → v ∈ full) latest streams →
      ∀ snap ∈ combineLatestGo remaining latest sched,
        List.Forall₂ (fun c l => c ∈ l) snap streams := by
  intro sched
  induction sched with
  | nil => intro remaining latest _ _ snap hsnap; simp [combineLatestGo] at hsnap
  | cons i rest ih =>
    intro remaining latest hIR hIL snap hsnap
    cases hrem : remaining[i]? with
    | none =>
      simp only [combineLatestGo, hrem] at hsnap
      exact ih remaining latest hIR hIL snap hsnap
    | some ls =>
      cases ls with
      | nil =>
        simp only [combineLatestGo, hrem] at hsnap
        exact ih remaining latest hIR hIL snap hsnap
      | cons v vs =>
        simp only [combineLatestGo, hrem] at hsnap
        obtain ⟨full, hfull, hsub⟩ := fa2_get_left hIR hrem
        have hsub2 := List.cons_subset.mp hsub
        have hIR2 : List.Forall₂ (fun rem f => rem ⊆ f) (remaining.set i vs) streams :=
          fa2_set_left hIR hfull hsub2.2
        have hIL2 : List.Forall₂ (fun o f => ∀ w, o = some w → w ∈ f)
            (latest.set i (some v)) streams := by
          refine fa2_set_left hIL hfull ?_
          intro w hw
          cases hw
          exact hsub2.1
        cases hseq : seqOptions (latest.set i (some v)) with
        | none =>
          simp only [hseq] at hsnap
          exact ih _ _ hIR2 hIL2 snap hsnap
        | some s2 =>
          simp only [hseq] at hsnap
          rcases List.mem_cons.mp hsnap with rfl | h2
          · exact fa2_compose (seqOptions_forall2 hseq) hIL2
          · exact ih _ _ hIR2 hIL2 snap h2

theorem map_none_forall2 :
    ∀ (streams : List (List α)),
      List.Forall₂ (fun o full => ∀ v, o = some v → v ∈ full)
        (streams.map (fun _ => (none : Option α))) streams := by
  intro streams
  induction streams with
  | nil => exact List.Forall₂.nil
  | cons l ls ihs =>
    refine List.Forall₂.cons ?_ ihs
    intro v hv
    cases hv

theorem combineLatestTrace_mem (streams : List (List α)) (sched : List Nat) :
    ∀ snap ∈ combineLatestTrace streams sched,
      List.Forall₂ (fun c l => c ∈ l) snap streams := by
  have hIR : List.Forall₂ (fun rem full => rem ⊆ full) streams streams :=
    List.forall₂_same.mpr (fun x _ => List.Subset.refl x)
  exact combineLatestGo_mem streams sched streams _ hIR (map_none_forall2 streams)

theorem filter_truthy_reduceOption (t : α → Bool) :
    ∀ (l : List (Option α)), (∀ o ∈ l, o.all t = true) →
      (l.filter (jsTruthyOpt t)).reduceOption = l.reduceOption := by
  intro l
  induction l with
  | nil => intro _; rfl
  | cons o rest ih =>
    intro h
    have ho := h o (List.mem_cons_self _ _)
    have hrest := ih (fun x hx => h x (List.mem_cons_of_mem _ hx))
    cases o with
    | none => simp [jsTruthyOpt, List.reduceOption_cons_of_none, hrest]
    | some v =>
      have htv : t v = true := by simpa [Option.all] using ho
      simp [jsTruthyOpt, htv, List.reduceOption_cons_of_some, hrest]

/-- C5 (amended): for every snapshot getStores combines, each position holds an
emission of the corresponding key's stream; the combined `loading` is true whenever
some key (here key j) has emitted only `loading: true` frames so far — in particular
until every key has reported `loading: false` at least once; and under JS-truthy
values/errors the combined `value`/`error` lists are exactly the present values and
errors of the latest snapshot, in paramsList order (not the claim's "defined values
seen so far": JS-falsy present values are dropped, see the counterexample). -/
theorem getStores_combination_truthy [DecidableEq T] [DecidableEq E]
    (tT : T → Bool) (tE : E → Bool) (streams : List (List (CacheResult T E)))
    (sched : List Nat) (snap : List (CacheResult T E)) (j : Nat)
    (lj : List (CacheResult T E))
    (hsnap : snap ∈ combineLatestTrace streams sched)
    (hj : streams[j]? = some lj) (hall : ∀ x ∈ lj, x.loading = true)
    (hT : streams.all (fun l => l.all (fun r => r.value.all tT)) = true)
    (hE : streams.all (fun l => l.all (fun r => r.error.all tE)) = true) :
    snap.length = streams.length
    ∧ (snap.zip streams).all (fun pr => decide (pr.1 ∈ pr.2)) = true
    ∧ (combineStores tT tE snap).loading = true
    ∧ (combineStores tT tE snap).value = snap.filterMap (fun r => r.value)
    ∧ (combineStores tT tE snap).error = snap.filterMap (fun r => r.error) := by
  have hfa : List.Forall₂ (fun c l => c ∈ l) snap streams :=
    combineLatestTrace_mem streams sched snap hsnap
  have hmemstream : ∀ c ∈ snap, ∃ l ∈ streams, c ∈ l := fun c hc =>
    forall2_mem_left hfa c hc
  simp only [List.all_eq_true] at hT hE
  have hTv : ∀ c ∈ snap, c.value.all tT = true := by
    intro c hc
    obtain ⟨l, hl, hcl⟩ := hmemstream c hc
    exact hT l hl c hcl
  have hEv : ∀ c ∈ snap, c.error.all tE = true := by
    intro c hc
    obtain ⟨l, hl, hcl⟩ := hmemstream c hc
    exact hE l hl c hcl
  refine ⟨hfa.length_eq, ?_, ?_, ?_, ?_⟩
  · refine List.all_eq_true.mpr (fun pr hpr => ?_)
    exact decide_eq_true (fa2_zip hfa pr hpr)
  · obtain ⟨c, hcj, hcl⟩ := fa2_get_right hfa hj
    have hcsnap : c ∈ snap := List.getElem?_mem hcj
    have hcload : c.loading = true := hall c hcl
    simp only [combineStores, List.any_eq_true]
    exact ⟨c.loading, List.mem_map_of_mem _ hcsnap, by simp [hcload]⟩
  · simp only [combineStores]
    rw [filter_truthy_reduceOption tT _ (by
      intro o ho
      obtain ⟨c, hc, rfl⟩ := List.mem_map.mp ho
      exact hTv c hc)]
    simp [List.reduceOption, List.filterMap_map]
  · simp only [combineStores]
    rw [filter_truthy_reduceOption tE _ (by
      intro o ho
      obtain ⟨c, hc, rfl⟩ := List.mem_map.mp ho
      exact hEv c hc)]
    simp [List.reduceOption, List.filterMap_map]

/-- Witness for C5 (amended): two keys, the first still loading, the second having
emitted the value 2. -/
theorem getStores_combination_truthy_witness :
    ([({ loading := true, value := none, error := none } : CacheResult Nat String),
        { loading := false, value := some 2, error := none }] :
        List (CacheResult Nat String)).length =
      ([[({ loading := true, value := none, error := none } : CacheResult Nat String)],
        [{ loading := false, value := some 2, error := none }]]).length
    ∧ (([({ loading := true, value := none, error := none } : CacheResult Nat String),
          { loading := false, value := some 2, error := none }]).zip
        [[({ loading := true, value := none, error := none } : CacheResult Nat String)],
         [{ loading := false, value := some 2, error := none }]]).all
        (fun pr => decide (pr.1 ∈ pr.2)) = true
    ∧ (combineStores truthyNat truthyStr
        [{ loading := true, value := none, error := none },
         { loading := false, value := some 2, error := none }]).loading = true
    ∧ (combineStores truthyNat truthyStr
        [{ loading := true, value := none, error := none },
         { loading := false, value := some 2, error := none }]).value =
        ([{ loading := true, value := none, error := none },
          { loading := false, value := some 2, error := none }] :
          List (CacheResult Nat String)).filterMap (fun r => r.value)
    ∧ (combineStores truthyNat truthyStr
        [{ loading := true, value := none, error := none },
         { loading := false, value := some 2, error := none }]).error =
        ([{ loading := true, value := none, error := none },
          { loading := false, value := some 2, error := none }] :
          List (CacheResult Nat String)).filterMap (fun r => r.error) := by
  exact getStores_combination_truthy truthyNat truthyStr
    [[{ loading := true, value := none, error := none }],
     [{ loading := false, value := some 2, error := none }]]
    [0, 1]
    [{ loading := true, value := none, error := none },
     { loading := false, value := some 2, error := none }]
    0 [{ loading := true, value := none, error := none }]
    (by decide) (by decide) (by decide) (by decide) (by decide)

/-- C5 counterexample: the claim promises `value` to be the list of defined
(non-undefined) values; but `filter(Boolean)` drops JS-falsy present values — a key
whose latest result holds the defined value 0 contributes nothing, so the delivered
value list is `[]` where the claim requires `[0]`. -/
theorem getStores_combines_cex :
    (getStoresModel truthyNat truthyStr
        [[{ loading := false, value := some 0, error := none }]] [0]).map
        (fun o => o.value) = [[]]
    ∧ ((combineLatestTrace
        [[({ loading := false, value := some 0, error := none } : CacheResult Nat String)]]
        [0]).map (fun snap => snap.filterMap (fun r => r.value))) = [[0]]
    ∧ ([] : List Nat) ≠ [0] := by
  refine ⟨by decide, by decide, by decide⟩

/-! ### Store machine lemmas (C1, C10) -/

theorem lookupA_cons (a : String × β) (l : List (String × β)) (k : String) :
    lookupA (a :: l) k = if a.1 == k then some a.2 else lookupA l k := by
  cases h : (a.1 == k) <;> simp [lookupA, List.find?_cons, h]

theorem setA_cons (a : String × β) (l : List (String × β)) (k : String) (b : β) :
    setA (a :: l) k b = (if a.1 == k then (k, b) else a) :: setA l k b := rfl

theorem lookupA_setA_self :
    ∀ (l : List (String × β)) (k : String) (b e : β), lookupA l k = some e →
      lookupA (setA l k b) k = some b := by
  intro l
  induction l with
  | nil => intro k b e h; simp [lookupA] at h
  | cons a l ih =>
    intro k b e h
    rw [lookupA_cons] at h
    rw [setA_cons]
    cases h1 : (a.1 == k) with
    | true =>
      simp only [h1, if_true]
      rw [lookupA_cons]
      simp
    | false =>
      simp only [h1] at h
      simp only [Bool.false_eq_true, if_false] at h
      simp only [h1, Bool.false_eq_true, if_false]
      rw [lookupA_cons]
      simp only [h1, Bool.false_eq_true, if_false]
      exact ih k b e h

theorem lookupA_setA_ne :
    ∀ (l : List (String × β)) (k k2 : String) (b : β), k2 ≠ k →
      lookupA (setA l k b) k2 = lookupA l k2 := by
  intro l
  induction l with
  | nil => intro k k2 b _; rfl
  | cons a l ih =>
    intro k k2 b hne
    rw [setA_cons, lookupA_cons, lookupA_cons]
    cases h1 : (a.1 == k) with
    | true =>
      have ha : a.1 = k := by simpa using h1
      have h2 : (k == k2) = false := by
        simp only [beq_eq_false_iff_ne, ne_eq]
        exact fun he => hne he.symm
      have h3 : (a.1 == k2) = false := by rw [ha]; exact h2
      simp only [h1, if_true, h2, h3, Bool.false_eq_true, if_false]
      exact ih k k2 b hne
    | false =>
      simp only [h1, Bool.false_eq_true, if_false]
      cases h2 : (a.1 == k2) with
      | true => simp [h2]
      | false =>
        simp only [h2, Bool.false_eq_true, if_false]
        exact ih k k2 b hne

theorem lookupA_append_some :
    ∀ (l l2 : List (String × β)) (k : String) (e : β), lookupA l k = some e →
      lookupA (l ++ l2) k = some e := by
  intro l
  induction l with
  | nil => intro l2 k e h; simp [lookupA] at h
  | cons a l ih =>
    intro l2 k e h
    rw [lookupA_cons] at h
    rw [List.cons_append, lookupA_cons]
    cases h1 : (a.1 == k) with
    | true => simp only [h1, if_true] at h ⊢; exact h
    | false =>
      simp only [h1, Bool.false_eq_true, if_false] at h ⊢
      exact ih l2 k e h

theorem lookupA_append_none :
    ∀ (l l2 : List (String × β)) (k : String), lookupA l k = none →
      lookupA (l ++ l2) k = lookupA l2 k := by
  intro l
  induction l with
  | nil => intro l2 k _; rfl
  | cons a l ih =>
    intro l2 k h
    rw [lookupA_cons] at h
    rw [List.cons_append, lookupA_cons]
    cases h1 : (a.1 == k) with
    | true => simp [h1] at h
    | false =>
      simp only [h1, Bool.false_eq_true, if_false] at h ⊢
      exact ih l2 k h

theorem setA_keys (l : List (String × β)) (k : String) (b : β) :
    (setA l k b).map (fun p => p.1) = l.map (fun p => p.1) := by
  induction l with
  | nil => rfl
  | cons a l ih =>
    rw [setA_cons]
    cases h1 : (a.1 == k) with
    | true =>
      have ha : a.1 = k := by simpa using h1
      simp [h1, ha, ih]
    | false => simp [h1, ih]

theorem lookupA_none_iff :
    ∀ (l : List (String × β)) (k : String),
      lookupA l k = none ↔ k ∉ l.map (fun p => p.1) := by
  intro l
  induction l with
  | nil => intro k; simp [lookupA]
  | cons a l ih =>
    intro k
    rw [lookupA_cons]
    cases h1 : (a.1 == k) with
    | true =>
      have ha : a.1 = k := by simpa using h1
      simp [h1, ha]
    | false =>
      have ha : a.1 ≠ k := by simpa using h1
      simp only [h1, Bool.false_eq_true, if_false, List.map_cons, List.mem_cons]
      rw [ih k]
      constructor
      · intro h2 hor
        rcases hor with he | hm
        · exact ha he.symm
        · exact h2 hm
      · intro h2 hm
        exact h2 (Or.inr hm)

theorem processedEntry_id (cfg : StoreCfg Params T E E0 B) (aux : B)
    (e : Entry Params T E) (x : Option (CacheResult T E)) :
    (processedEntry cfg aux e x).id = e.id := by
  cases x <;> rfl

theorem processedEntry_params (cfg : StoreCfg Params T E E0 B) (aux : B)
    (e : Entry Params T E) (x : Option (CacheResult T E)) :
    (processedEntry cfg aux e x).params = e.params := by
  cases x <;> rfl

theorem processedEntry_flag_mono (cfg : StoreCfg Params T E E0 B) (aux : B)
    (e : Entry Params T E) (x : Option (CacheResult T E))
    (h : e.lastFetchFailed = true) :
    (processedEntry cfg aux e x).lastFetchFailed = true := by
  cases x with
  | some v => exact h
  | none =>
    simp only [processedEntry]
    split <;> simp [h]

theorem processCV_lookup (cfg : StoreCfg Params T E E0 B) (s : StoreState Params T E B)
    (k0 : String) (x : Option (CacheResult T E)) (k : String) :
    lookupA (processChannelValue cfg s k0 x).entries k =
      if k = k0 then (lookupA s.entries k0).map (fun e => processedEntry cfg s.aux e x)
      else lookupA s.entries k := by
  unfold processChannelValue
  cases hl : lookupA s.entries k0 with
  | none => by_cases hk : k = k0 <;> simp [hl, hk]
  | some e =>
    simp only [hl, Option.map_some']
    by_cases hk : k = k0
    · subst hk
      simp only [if_true]
      exact lookupA_setA_self s.entries _ _ e hl
    · simp only [hk, if_false]
      exact lookupA_setA_ne s.entries _ _ _ hk

theorem pushChannel_lookup (cfg : StoreCfg Params T E E0 B) (s : StoreState Params T E B)
    (k0 : String) (x : Option (CacheResult T E)) (k : String) :
    lookupA (pushChannel cfg s k0 x).entries k =
      if k = k0 then
        (lookupA s.entries k0).map (fun e =>
          if e.upstreamActive then processedEntry cfg s.aux e x
          else { e with pendingReplay := some x })
      else lookupA s.entries k := by
  unfold pushChannel
  cases hl : lookupA s.entries k0 with
  | none => by_cases hk : k = k0 <;> simp [hl, hk]
  | some e =>
    cases hact : e.upstreamActive with
    | true =>
      simp only [hl, hact, if_true, Option.map_some']
      rw [processCV_lookup]
      simp [hl]
    | false =>
      simp only [hl, hact, Bool.false_eq_true, if_false, Option.map_some']
      by_cases hk : k = k0
      · subst hk
        simp only [if_true]
        exact lookupA_setA_self s.entries _ _ e hl
      · simp only [hk, if_false]
        exact lookupA_setA_ne s.entries _ _ _ hk

theorem initEntry_existing (cfg : StoreCfg Params T E E0 B) (s : StoreState Params T E B)
    (p : Params) (e0 : Entry Params T E)
    (h : lookupA s.entries (cfg.hasher p) = some e0) :
    initEntry cfg s p = s := by
  unfold initEntry
  simp [h]

theorem initEntry_new_lookup (cfg : StoreCfg Params T E E0 B) (s : StoreState Params T E B)
    (p : Params) (k : String) (h : lookupA s.entries (cfg.hasher p) = none) :
    lookupA (initEntry cfg s p).entries k =
      if k = cfg.hasher p then
        some { id := s.nextId, params := p, lastFetchFailed := false,
               pendingReplay := some none, upstreamActive := false, subCount := 0,
               fetchCount := 0, emittedRaw := [] }
      else lookupA s.entries k := by
  unfold initEntry
  simp only [h]
  by_cases hk : k = cfg.hasher p
  · subst hk
    rw [lookupA_append_none _ _ _ h, lookupA_cons]
    simp
  · simp only [hk, if_false]
    cases hl : lookupA s.entries k with
    | none =>
      rw [lookupA_append_none _ _ _ hl, lookupA_cons]
      have h2 : (cfg.hasher p == k) = false := by
        simp only [beq_eq_false_iff_ne, ne_eq]
        exact fun he => hk he.symm
      simp [h2, lookupA]
    | some e => exact lookupA_append_some _ _ _ _ hl

theorem initEntry_keys (cfg : StoreCfg Params T E E0 B) (s : StoreState Params T E B)
    (p : Params) :
    (initEntry cfg s p).entries.map (fun q => q.1) = s.entries.map (fun q => q.1)
    ∨ ((initEntry cfg s p).entries.map (fun q => q.1) =
        s.entries.map (fun q => q.1) ++ [cfg.hasher p]
      ∧ lookupA s.entries (cfg.hasher p) = none) := by
  unfold initEntry
  cases hl : lookupA s.entries (cfg.hasher p) with
  | some e => left; simp [hl]
  | none => right; simp [hl]

theorem subscribeStep_lookup (cfg : StoreCfg Params T E E0 B)
    (s : StoreState Params T E B) (p : Params) (k : String) :
    lookupA (subscribeStep cfg s p).entries k =
      if k = cfg.hasher p then
        (lookupA s.entries (cfg.hasher p)).map (fun e =>
          if e.upstreamActive then { e with subCount := e.subCount + 1 }
          else
            match e.pendingReplay with
            | some x => processedEntry cfg s.aux { e with subCount := e.subCount + 1, upstreamActive := true, pendingReplay := none } x
            | none => { e with subCount := e.subCount + 1, upstreamActive := true, pendingReplay := none })
      else lookupA s.entries k := by
  unfold subscribeStep
  cases hl : lookupA s.entries (cfg.hasher p) with
  | none => by_cases hk : k = cfg.hasher p <;> simp [hl, hk]
  | some e =>
    cases hact : e.upstreamActive with
    | true =>
      simp only [hl, hact, if_true, Option.map_some']
      by_cases hk : k = cfg.hasher p
      · subst hk
        simp only [if_true]
        exact lookupA_setA_self s.entries _ _ e hl
      · simp only [hk, if_false]
        exact lookupA_setA_ne s.entries _ _ _ hk
    | false =>
      simp only [hl, hact, Bool.false_eq_true, if_false, Option.map_some']
      cases hpend : e.pendingReplay with
      | none =>
        by_cases hk : k = cfg.hasher p
        · subst hk
          simp only [if_true]
          exact lookupA_setA_self s.entries _ _ e hl
        · simp only [hk, if_false]
          exact lookupA_setA_ne s.entries _ _ _ hk
      | some x =>
        rw [processCV_lookup]
        by_cases hk : k = cfg.hasher p
        · subst hk
          simp only [if_true]
          rw [lookupA_setA_self s.entries _ _ e hl]
          rfl
        · simp only [hk, if_false]
          exact lookupA_setA_ne s.entries _ _ _ hk

theorem unsubscribeStep_lookup (cfg : StoreCfg Params T E E0 B)
    (s : StoreState Params T E B) (p : Params) (k : String) :
    lookupA (unsubscribeStep cfg s p).entries k =
      if k = cfg.hasher p then
        (lookupA s.entries (cfg.hasher p)).map
          (fun e => { e with subCount := e.subCount - 1 })
      else lookupA s.entries k := by
  unfold unsubscribeStep
  cases hl : lookupA s.entries (cfg.hasher p) with
  | none => by_cases hk : k = cfg.hasher p <;> simp [hl, hk]
  | some e =>
    simp only [hl, Option.map_some']
    by_cases hk : k = cfg.hasher p
    · subst hk
      simp only [if_true]
      exact lookupA_setA_self s.entries _ _ e hl
    · simp only [hk, if_false]
      exact lookupA_setA_ne s.entries _ _ _ hk

theorem pushTransform_fields (cfg : StoreCfg Params T E E0 B) (aux : B)
    (e : Entry Params T E) (x : Option (CacheResult T E)) :
    (if e.upstreamActive then processedEntry cfg aux e x
        else { e with pendingReplay := some x }).id = e.id
    ∧ (if e.upstreamActive then processedEntry cfg aux e x
        else { e with pendingReplay := some x }).params = e.params
    ∧ (e.lastFetchFailed = true →
        (if e.upstreamActive then processedEntry cfg aux e x
          else { e with pendingReplay := some x }).lastFetchFailed = true) := by
  cases hact : e.upstreamActive with
  | false => simp [hact]
  | true =>
    simp only [hact, if_true]
    exact ⟨processedEntry_id cfg aux e x, processedEntry_params cfg aux e x,
      processedEntry_flag_mono cfg aux e x⟩

theorem getStoreStep_existing (cfg : StoreCfg Params T E E0 B)
    (s : StoreState Params T E B) (p : Params) (force : Bool) (e0 : Entry Params T E)
    (hl0 : lookupA s.entries (cfg.hasher p) = some e0) :
    getStoreStep cfg s p force =
      if force || e0.lastFetchFailed then pushChannel cfg s (cfg.hasher p) none else s := by
  unfold getStoreStep
  simp only [initEntry_existing cfg s p e0 hl0, hl0]

theorem getStoreStep_new (cfg : StoreCfg Params T E E0 B)
    (s : StoreState Params T E B) (p : Params) (force : Bool)
    (hl0 : lookupA s.entries (cfg.hasher p) = none) :
    getStoreStep cfg s p force =
      if force then pushChannel cfg (initEntry cfg s p) (cfg.hasher p) none
      else initEntry cfg s p := by
  unfold getStoreStep
  have hfresh := initEntry_new_lookup cfg s p (cfg.hasher p) hl0
  simp only [if_pos rfl] at hfresh
  simp only [hfresh]
  simp

theorem foldl_pushChannel_mono (cfg : StoreCfg Params T E E0 B) :
    ∀ (ks : List String) (s : StoreState Params T E B) (k : String) (e : Entry Params T E),
      lookupA s.entries k = some e →
      ∃ e2, lookupA ((ks.foldl (fun st k0 => pushChannel cfg st k0 none) s)).entries k =
          some e2
        ∧ e2.id = e.id ∧ e2.params = e.params
        ∧ (e.lastFetchFailed = true → e2.lastFetchFailed = true) := by
  intro ks
  induction ks with
  | nil => intro s k e h; exact ⟨e, h, rfl, rfl, fun hf => hf⟩
  | cons k0 ks ih =>
    intro s k e h
    simp only [List.foldl_cons]
    by_cases hk : k = k0
    · subst hk
      have hstep : lookupA (pushChannel cfg s k none).entries k =
          some (if e.upstreamActive then processedEntry cfg s.aux e none
            else { e with pendingReplay := some none }) := by
        rw [pushChannel_lookup]
        simp [h]
      obtain ⟨hid, hpar, hfl⟩ := pushTransform_fields cfg s.aux e none
      obtain ⟨e2, h2, h2id, h2par, h2fl⟩ := ih _ k _ hstep
      exact ⟨e2, h2, by rw [h2id, hid], by rw [h2par, hpar],
        fun hf => h2fl (hfl hf)⟩
    · have hstep : lookupA (pushChannel cfg s k0 none).entries k = some e := by
        rw [pushChannel_lookup]
        simp [hk, h]
      exact ih _ k _ hstep

/-- No operation ever destroys an entry or changes its identity (the stored
observable) or params; and a set lastFetchFailed flag is never cleared. -/
theorem stepStore_entry_mono (cfg : StoreCfg Params T E E0 B) (op : StoreOp Params T)
    (s : StoreState Params T E B) (k : String) (e : Entry Params T E)
    (h : lookupA s.entries k = some e) :
    ∃ e2, lookupA (stepStore cfg s op).entries k = some e2 ∧ e2.id = e.id
      ∧ e2.params = e.params
      ∧ (e.lastFetchFailed = true → e2.lastFetchFailed = true) := by
  cases op with
  | getStore p force =>
    show ∃ e2, lookupA (getStoreStep cfg s p force).entries k = some e2 ∧ _
    cases hl0 : lookupA s.entries (cfg.hasher p) with
    | some e0 =>
      rw [getStoreStep_existing cfg s p force e0 hl0]
      by_cases hcond : (force || e0.lastFetchFailed) = true
      · simp only [hcond, if_true]
        rw [pushChannel_lookup]
        by_cases hk : k = cfg.hasher p
        · subst hk
          rw [h]
          obtain ⟨hid, hpar, hfl⟩ := pushTransform_fields cfg s.aux e none
          exact ⟨_, by simp, hid, hpar, hfl⟩
        · simp only [hk, if_false]
          exact ⟨e, h, rfl, rfl, fun hf => hf⟩
      · simp only [hcond, if_false]
        exact ⟨e, h, rfl, rfl, fun hf => hf⟩
    | none =>
      have hk : k ≠ cfg.hasher p := by
        intro he
        rw [he, hl0] at h
        exact Option.noConfusion h
      rw [getStoreStep_new cfg s p force hl0]
      have hinit : lookupA (initEntry cfg s p).entries k = some e := by
        rw [initEntry_new_lookup cfg s p k hl0]
        simp [hk, h]
      by_cases hforce : force = true
      · simp only [hforce, if_true]
        rw [pushChannel_lookup]
        simp only [hk, if_false]
        exact ⟨e, hinit, rfl, rfl, fun hf => hf⟩
      · simp only [hforce, if_false]
        exact ⟨e, hinit, rfl, rfl, fun hf => hf⟩
  | subscribe p =>
    show ∃ e2, lookupA (subscribeStep cfg s p).entries k = some e2 ∧ _
    rw [subscribeStep_lookup]
    by_cases hk : k = cfg.hasher p
    · subst hk
      rw [h, if_pos rfl]
      refine ⟨_, rfl, ?_, ?_, ?_⟩
      · cases hact : e.upstreamActive with
        | true => simp [hact]
        | false =>
          simp only [hact, Bool.false_eq_true, if_false]
          cases hpend : e.pendingReplay with
          | none => rfl
          | some x => simp [processedEntry_id]
      · cases hact : e.upstreamActive with
        | true => simp [hact]
        | false =>
          simp only [hact, Bool.false_eq_true, if_false]
          cases hpend : e.pendingReplay with
          | none => rfl
          | some x => simp [processedEntry_params]
      · intro hf
        cases hact : e.upstreamActive with
        | true => simp [hact, hf]
        | false =>
          simp only [hact, Bool.false_eq_true, if_false]
          cases hpend : e.pendingReplay with
          | none => exact hf
          | some x => exact processedEntry_flag_mono cfg s.aux _ x hf
    · rw [if_neg hk]
      exact ⟨e, h, rfl, rfl, fun hf => hf⟩
  | unsubscribe p =>
    show ∃ e2, lookupA (unsubscribeStep cfg s p).entries k = some e2 ∧ _
    rw [unsubscribeStep_lookup]
    by_cases hk : k = cfg.hasher p
    · subst hk
      rw [h, if_pos rfl]
      exact ⟨_, rfl, rfl, rfl, fun hf => hf⟩
    · rw [if_neg hk]
      exact ⟨e, h, rfl, rfl, fun hf => hf⟩
  | updateStoreValue p v =>
    show ∃ e2, lookupA (updateStoreValueStep cfg s p v).entries k = some e2 ∧ _
    unfold updateStoreValueStep
    cases hl0 : lookupA s.entries (cfg.hasher p) with
    | some e0 =>
      rw [initEntry_existing cfg s p e0 hl0, pushChannel_lookup]
      by_cases hk : k = cfg.hasher p
      · subst hk
        rw [h, if_pos rfl]
        obtain ⟨hid, hpar, hfl⟩ := pushTransform_fields cfg s.aux e
          (some { loading := false, value := some v, error := none })
        exact ⟨_, rfl, hid, hpar, hfl⟩
      · rw [if_neg hk]
        exact ⟨e, h, rfl, rfl, fun hf => hf⟩
    | none =>
      have hk : k ≠ cfg.hasher p := by
        intro he
        rw [he, hl0] at h
        exact Option.noConfusion h
      have hinit : lookupA (initEntry cfg s p).entries k = some e := by
        rw [initEntry_new_lookup cfg s p k hl0]
        simp [hk, h]
      rw [pushChannel_lookup]
      simp only [hk, if_false]
      exact ⟨e, hinit, rfl, rfl, fun hf => hf⟩
  | expireAll =>
    show ∃ e2, lookupA (expireAllStep cfg s).entries k = some e2 ∧ _
    unfold expireAllStep
    exact foldl_pushChannel_mono cfg _ s k e h

theorem runStore_entry_mono (cfg : StoreCfg Params T E E0 B) :
    ∀ (ops : List (StoreOp Params T)) (s : StoreState Params T E B) (k : String)
      (e : Entry Params T E), lookupA s.entries k = some e →
      ∃ e2, lookupA (runStore cfg ops s).entries k = some e2 ∧ e2.id = e.id
        ∧ e2.params = e.params
        ∧ (e.lastFetchFailed = true → e2.lastFetchFailed = true) := by
  intro ops
  induction ops with
  | nil => intro s k e h; exact ⟨e, h, rfl, rfl, fun hf => hf⟩
  | cons op ops ih =>
    intro s k e h
    obtain ⟨e1, h1, h1id, h1par, h1fl⟩ := stepStore_entry_mono cfg op s k e h
    obtain ⟨e2, h2, h2id, h2par, h2fl⟩ := ih (stepStore cfg s op) k e1 h1
    exact ⟨e2, h2, by rw [h2id, h1id], by rw [h2par, h1par], fun hf => h2fl (h1fl hf)⟩

theorem processCV_keys (cfg : StoreCfg Params T E E0 B) (s : StoreState Params T E B)
    (k0 : String) (x : Option (CacheResult T E)) :
    (processChannelValue cfg s k0 x).entries.map (fun q => q.1) =
      s.entries.map (fun q => q.1) := by
  unfold processChannelValue
  cases hl : lookupA s.entries k0 with
  | none => rfl
  | some e => simp [setA_keys]

theorem pushChannel_keys (cfg : StoreCfg Params T E E0 B) (s : StoreState Params T E B)
    (k0 : String) (x : Option (CacheResult T E)) :
    (pushChannel cfg s k0 x).entries.map (fun q => q.1) =
      s.entries.map (fun q => q.1) := by
  unfold pushChannel
  cases hl : lookupA s.entries k0 with
  | none => rfl
  | some e =>
    cases hact : e.upstreamActive with
    | true => simp [hact, processCV_keys]
    | false => simp [hact, setA_keys]

theorem subscribeStep_keys (cfg : StoreCfg Params T E E0 B)
    (s : StoreState Params T E B) (p : Params) :
    (subscribeStep cfg s p).entries.map (fun q => q.1) =
      s.entries.map (fun q => q.1) := by
  unfold subscribeStep
  cases hl : lookupA s.entries (cfg.hasher p) with
  | none => simp [hl]
  | some e =>
    cases hact : e.upstreamActive with
    | true => simp [hl, hact, setA_keys]
    | false =>
      cases hpend : e.pendingReplay with
      | none => simp [hl, hact, hpend, setA_keys]
      | some x => simp [hl, hact, hpend, processCV_keys, setA_keys]

theorem unsubscribeStep_keys (cfg : StoreCfg Params T E E0 B)
    (s : StoreState Params T E B) (p : Params) :
    (unsubscribeStep cfg s p).entries.map (fun q => q.1) =
      s.entries.map (fun q => q.1) := by
  unfold unsubscribeStep
  cases hl : lookupA s.entries (cfg.hasher p) with
  | none => simp [hl]
  | some e => simp [hl, setA_keys]

theorem foldl_pushChannel_keys (cfg : StoreCfg Params T E E0 B) :
    ∀ (ks : List String) (s : StoreState Params T E B),
      ((ks.foldl (fun st k0 => pushChannel cfg st k0 none) s)).entries.map (fun q => q.1) =
        s.entries.map (fun q => q.1) := by
  intro ks
  induction ks with
  | nil => intro s; rfl
  | cons k0 ks ih =>
    intro s
    simp only [List.foldl_cons]
    rw [ih, pushChannel_keys]

theorem initEntry_keys_new (cfg : StoreCfg Params T E E0 B)
    (s : StoreState Params T E B) (p : Params)
    (h : lookupA s.entries (cfg.hasher p) = none) :
    (initEntry cfg s p).entries.map (fun q => q.1) =
      s.entries.map (fun q => q.1) ++ [cfg.hasher p] := by
  unfold initEntry
  simp [h]

theorem stepStore_keys (cfg : StoreCfg Params T E E0 B) (op : StoreOp Params T)
    (s : StoreState Params T E B) :
    (stepStore cfg s op).entries.map (fun q => q.1) = s.entries.map (fun q => q.1)
    ∨ ∃ kn, (stepStore cfg s op).entries.map (fun q => q.1) =
        s.entries.map (fun q => q.1) ++ [kn] ∧ lookupA s.entries kn = none := by
  cases op with
  | getStore p force =>
    simp only [stepStore]
    cases hl0 : lookupA s.entries (cfg.hasher p) with
    | some e0 =>
      rw [getStoreStep_existing cfg s p force e0 hl0]
      left
      by_cases hcond : (force || e0.lastFetchFailed) = true
      · simp only [hcond, if_true]
        exact pushChannel_keys cfg s _ none
      · simp [hcond]
    | none =>
      right
      refine ⟨cfg.hasher p, ?_, hl0⟩
      rw [getStoreStep_new cfg s p force hl0]
      by_cases hforce : force = true
      · simp only [hforce, if_true]
        rw [pushChannel_keys, initEntry_keys_new cfg s p hl0]
      · simp only [hforce, Bool.false_eq_true, if_false]
        exact initEntry_keys_new cfg s p hl0
  | subscribe p => exact Or.inl (subscribeStep_keys cfg s p)
  | unsubscribe p => exact Or.inl (unsubscribeStep_keys cfg s p)
  | updateStoreValue p v =>
    simp only [stepStore]
    unfold updateStoreValueStep
    cases hl0 : lookupA s.entries (cfg.hasher p) with
    | some e0 =>
      rw [initEntry_existing cfg s p e0 hl0]
      exact Or.inl (pushChannel_keys cfg s _ _)
    | none =>
      right
      refine ⟨cfg.hasher p, ?_, hl0⟩
      rw [pushChannel_keys, initEntry_keys_new cfg s p hl0]
  | expireAll =>
    simp only [stepStore]
    unfold expireAllStep
    exact Or.inl (foldl_pushChannel_keys cfg _ s)

theorem stepStore_nodup (cfg : StoreCfg Params T E E0 B) (op : StoreOp Params T)
    (s : StoreState Params T E B)
    (h : (s.entries.map (fun q => q.1)).Nodup) :
    ((stepStore cfg s op).entries.map (fun q => q.1)).Nodup := by
  rcases stepStore_keys cfg op s with heq | ⟨kn, heq, hnone⟩
  · rw [heq]; exact h
  · rw [heq]
    have hnm : kn ∉ s.entries.map (fun q => q.1) := (lookupA_none_iff _ _).mp hnone
    simp [List.nodup_append, h, hnm]

theorem runStore_nodup (cfg : StoreCfg Params T E E0 B) :
    ∀ (ops : List (StoreOp Params T)) (s : StoreState Params T E B),
      (s.entries.map (fun q => q.1)).Nodup →
      ((runStore cfg ops s).entries.map (fun q => q.1)).Nodup := by
  intro ops
  induction ops with
  | nil => intro s h; exact h
  | cons op ops ih =>
    intro s h
    exact ih (stepStore cfg s op) (stepStore_nodup cfg op s h)

theorem C1Inv_step (cfg : StoreCfg Params T E E0 B) (kh : String) (op : StoreOp Params T)
    (s : StoreState Params T E B) (hop : nonInvalidatingOp op = true)
    (hf : ∀ (p : Params) (m : Nat) (b : B), cfg.hasher p = kh →
      ((cfg.fetchEff p m b).2).failure = none)
    (hinv : C1Inv cfg kh s) : C1Inv cfg kh (stepStore cfg s op) := by
  cases op with
  | expireAll => simp [nonInvalidatingOp] at hop
  | unsubscribe p =>
    intro e2 h2
    simp only [stepStore] at h2
    rw [unsubscribeStep_lookup] at h2
    by_cases hk : kh = cfg.hasher p
    · rw [if_pos hk] at h2
      cases hl : lookupA s.entries (cfg.hasher p) with
      | none => rw [hl] at h2; exact Option.noConfusion h2
      | some e =>
        rw [hl, Option.map_some'] at h2
        obtain rfl : ({ e with subCount := e.subCount - 1 } : Entry Params T E) = e2 :=
          Option.some.inj h2
        have he := hinv e (by rw [hk]; exact hl)
        exact he
    · rw [if_neg hk] at h2
      exact hinv e2 h2
  | subscribe p =>
    intro e2 h2
    simp only [stepStore] at h2
    rw [subscribeStep_lookup] at h2
    by_cases hk : kh = cfg.hasher p
    · rw [if_pos hk] at h2
      cases hl : lookupA s.entries (cfg.hasher p) with
      | none => rw [hl] at h2; exact Option.noConfusion h2
      | some e =>
        rw [hl, Option.map_some'] at h2
        have he := hinv e (by rw [hk]; exact hl)
        obtain ⟨hpar, hflag, hcnt, hact0⟩ := he
        cases hact : e.upstreamActive with
        | true =>
          simp only [hact, if_true] at h2
          obtain rfl := Option.some.inj h2
          exact ⟨hpar, hflag, hcnt, by intro hfalse; simp at hfalse⟩
        | false =>
          have hcnt0 : e.fetchCount = 0 := hact0 hact
          simp only [hact, Bool.false_eq_true, if_false] at h2
          cases hpend : e.pendingReplay with
          | none =>
            simp only [hpend] at h2
            obtain rfl := Option.some.inj h2
            exact ⟨hpar, hflag, hcnt, by intro hfalse; simp at hfalse⟩
          | some x =>
            simp only [hpend] at h2
            obtain rfl := Option.some.inj h2
            cases x with
            | some v =>
              refine ⟨hpar, hflag, ?_, by intro hfalse; simp [processedEntry] at hfalse⟩
              simp [processedEntry, hcnt0]
            | none =>
              have hfail : ((cfg.fetchEff e.params e.fetchCount s.aux).2).failure = none :=
                hf e.params e.fetchCount s.aux hpar
              refine ⟨?_, ?_, ?_, ?_⟩
              · simpa [processedEntry] using hpar
              · simp [processedEntry, hfail, hflag]
              · simp [processedEntry, hcnt0]
              · intro hfalse
                simp [processedEntry] at hfalse
    · rw [if_neg hk] at h2
      exact hinv e2 h2
  | getStore p force =>
    have hforce : force = false := by
      simpa [nonInvalidatingOp] using hop
    subst hforce
    intro e2 h2
    simp only [stepStore] at h2
    cases hl0 : lookupA s.entries (cfg.hasher p) with
    | some e0 =>
      rw [getStoreStep_existing cfg s p false e0 hl0] at h2
      by_cases hk : kh = cfg.hasher p
      · have he0 := hinv e0 (by rw [hk]; exact hl0)
        have hflag0 : e0.lastFetchFailed = false := he0.2.1
        simp only [Bool.false_or, hflag0, Bool.false_eq_true, if_false] at h2
        exact hinv e2 h2
      · by_cases hcond : (false || e0.lastFetchFailed) = true
        · simp only [hcond, if_true] at h2
          rw [pushChannel_lookup, if_neg hk] at h2
          exact hinv e2 h2
        · simp only [hcond, Bool.false_eq_true, if_false] at h2
          exact hinv e2 h2
    | none =>
      rw [getStoreStep_new cfg s p false hl0] at h2
      simp only [Bool.false_eq_true, if_false] at h2
      rw [initEntry_new_lookup cfg s p kh hl0] at h2
      by_cases hk : kh = cfg.hasher p
      · rw [if_pos hk] at h2
        obtain rfl := Option.some.inj h2
        exact ⟨by simpa using hk.symm, rfl, by simp, fun _ => rfl⟩
      · rw [if_neg hk] at h2
        exact hinv e2 h2
  | updateStoreValue p v =>
    intro e2 h2
    simp only [stepStore] at h2
    unfold updateStoreValueStep at h2
    cases hl0 : lookupA s.entries (cfg.hasher p) with
    | some e0 =>
      rw [initEntry_existing cfg s p e0 hl0, pushChannel_lookup] at h2
      by_cases hk : kh = cfg.hasher p
      · rw [if_pos hk, hl0, Option.map_some'] at h2
        obtain rfl := Option.some.inj h2
        have he0 := hinv e0 (by rw [hk]; exact hl0)
        obtain ⟨hpar, hflag, hcnt, hact0⟩ := he0
        cases hact : e0.upstreamActive with
        | true =>
          refine ⟨?_, ?_, ?_, ?_⟩ <;>
            simp [hact, processedEntry, hpar, hflag, hcnt]
        | false =>
          refine ⟨?_, ?_, ?_, ?_⟩ <;>
            simp [hact, hpar, hflag, hcnt, hact0 hact]
      · rw [if_neg hk] at h2
        exact hinv e2 h2
    | none =>
      rw [pushChannel_lookup] at h2
      by_cases hk : kh = cfg.hasher p
      · rw [if_pos hk] at h2
        rw [initEntry_new_lookup cfg s p (cfg.hasher p) hl0, if_pos rfl] at h2
        rw [Option.map_some'] at h2
        obtain rfl := Option.some.inj h2
        refine ⟨?_, ?_, ?_, ?_⟩ <;>
          simp [hk.symm]
      · rw [if_neg hk] at h2
        rw [initEntry_new_lookup cfg s p kh hl0, if_neg hk] at h2
        exact hinv e2 h2

theorem C1Inv_run (cfg : StoreCfg Params T E E0 B) (kh : String)
    (hf : ∀ (p : Params) (m : Nat) (b : B), cfg.hasher p = kh →
      ((cfg.fetchEff p m b).2).failure = none) :
    ∀ (ops : List (StoreOp Params T)) (s : StoreState Params T E B),
      ops.all nonInvalidatingOp = true → C1Inv cfg kh s →
      C1Inv cfg kh (runStore cfg ops s) := by
  intro ops
  induction ops with
  | nil => intro s _ hinv; exact hinv
  | cons op ops ih =>
    intro s hall hinv
    simp only [List.all_cons, Bool.and_eq_true] at hall
    exact ih (stepStore cfg s op) hall.2 (C1Inv_step cfg kh op s hall.1 hf hinv)

/-- C1: under getStore-without-force, subscribe and unsubscribe operations (no
invalidation) and a fetcher that never fails for key k, the entry of k runs at most
one fetch no matter how many observers subscribe, its lastFetchFailed flag stays
false, the stream instance returned for k (the stored observable, identified by its
allocation id, together with the stored params) is the same across any further
operations, and the store holds at most one entry per hashed key. -/
theorem getStore_reference_stable_single_fetch (cfg : StoreCfg Params T E E0 B)
    (k : Params) (ops ops2 : List (StoreOp Params T)) (b0 : B) (e : Entry Params T E)
    (hops : ops.all nonInvalidatingOp = true)
    (hf : ∀ (p : Params) (m : Nat) (b : B), cfg.hasher p = cfg.hasher k →
      ((cfg.fetchEff p m b).2).failure = none)
    (he : lookupA (runStore cfg ops (storeInit b0)).entries (cfg.hasher k) = some e) :
    e.fetchCount ≤ 1
    ∧ e.lastFetchFailed = false
    ∧ (lookupA (runStore cfg (ops ++ ops2) (storeInit b0)).entries (cfg.hasher k)).map
        (fun x => (x.id, x.params)) = some (e.id, e.params)
    ∧ ((runStore cfg ops (storeInit b0)).entries.map (fun q => q.1)).Nodup := by
  have hinv0 : C1Inv cfg (cfg.hasher k) (storeInit b0) := by
    intro e0 h0
    simp [lookupA, storeInit] at h0
  have hinv := C1Inv_run cfg (cfg.hasher k) hf ops (storeInit b0) hops hinv0
  obtain ⟨hpar, hflag, hcnt, _⟩ := hinv e he
  have happ : runStore cfg (ops ++ ops2) (storeInit b0) =
      runStore cfg ops2 (runStore cfg ops (storeInit b0)) := by
    simp [runStore, List.foldl_append]
  obtain ⟨e2, h2, h2id, h2par, _⟩ :=
    runStore_entry_mono cfg ops2 (runStore cfg ops (storeInit b0)) (cfg.hasher k) e he
  refine ⟨hcnt, hflag, ?_, ?_⟩
  · rw [happ, h2]
    simp [h2id, h2par]
  · exact runStore_nodup cfg ops (storeInit b0) (by simp [storeInit])

/-- Witness for C1: repeated getStore and subscribe calls for the key "k" on a store
whose fetcher always succeeds, followed by an arbitrary later operation. -/
theorem getStore_reference_stable_single_fetch_witness :
    (c1WitnessEntry).fetchCount ≤ 1
    ∧ (c1WitnessEntry).lastFetchFailed = false
    ∧ (lookupA (runStore alwaysOkCfg
        ([.getStore "k" false, .subscribe "k", .getStore "k" false, .subscribe "k",
          .getStore "k" false] ++ [.getStore "k" true])
        (storeInit ())).entries (alwaysOkCfg.hasher "k")).map
        (fun x => (x.id, x.params)) = some (c1WitnessEntry.id, c1WitnessEntry.params)
    ∧ ((runStore alwaysOkCfg
        [.getStore "k" false, .subscribe "k", .getStore "k" false, .subscribe "k",
          .getStore "k" false]
        (storeInit ())).entries.map (fun q => q.1)).Nodup := by
  exact getStore_reference_stable_single_fetch alwaysOkCfg "k"
    [.getStore "k" false, .subscribe "k", .getStore "k" false, .subscribe "k",
      .getStore "k" false]
    [.getStore "k" true] () c1WitnessEntry
    (by decide) (fun p m b _ => rfl) (by decide)

/-- C10: once a fetch for key k has failed, the entry's lastFetchFailed flag stays
true across every further operation — including later successful fetches — and every
subsequent getStore(k) call without force injects an invalidation into the live
entry, incrementing its fetch count by exactly one. -/
theorem lastFetchFailed_sticky_retrigger (cfg : StoreCfg Params T E E0 B) (k : Params)
    (ops : List (StoreOp Params T)) (s : StoreState Params T E B)
    (h : (lookupA s.entries (cfg.hasher k)).map
        (fun e => (e.lastFetchFailed, e.upstreamActive)) = some (true, true)) :
    (lookupA (runStore cfg ops s).entries (cfg.hasher k)).map
        (fun e => e.lastFetchFailed) = some true
    ∧ (lookupA (stepStore cfg s (.getStore k false)).entries (cfg.hasher k)).map
        (fun e => e.fetchCount) =
      (lookupA s.entries (cfg.hasher k)).map (fun e => e.fetchCount + 1) := by
  cases hl : lookupA s.entries (cfg.hasher k) with
  | none => rw [hl] at h; exact Option.noConfusion h
  | some e =>
    rw [hl, Option.map_some'] at h
    have hpair := Option.some.inj h
    have hflag : e.lastFetchFailed = true := congrArg Prod.fst hpair
    have hact : e.upstreamActive = true := congrArg Prod.snd hpair
    constructor
    · obtain ⟨e2, h2, _, _, h2fl⟩ := runStore_entry_mono cfg ops s (cfg.hasher k) e hl
      rw [h2, Option.map_some', h2fl hflag]
    · simp only [stepStore]
      rw [getStoreStep_existing cfg s k false e hl]
      simp only [hflag, Bool.or_true, if_true]
      rw [pushChannel_lookup, if_pos rfl, hl]
      simp [hact, processedEntry]

/-- Witness for C10: the fetcher fails on its first call for "k" and succeeds
afterwards; after a failing fetch, a later getStore (whose fetch succeeds) leaves the
flag set, and one more getStore still increments the fetch count. -/
theorem lastFetchFailed_sticky_retrigger_witness :
    (lookupA (runStore failThenOkCfg [.getStore "k" false]
        (runStore failThenOkCfg [.getStore "k" false, .subscribe "k"]
          (storeInit ()))).entries (failThenOkCfg.hasher "k")).map
        (fun e => e.lastFetchFailed) = some true
    ∧ (lookupA (stepStore failThenOkCfg
        (runStore failThenOkCfg [.getStore "k" false, .subscribe "k"] (storeInit ()))
        (.getStore "k" false)).entries (failThenOkCfg.hasher "k")).map
        (fun e => e.fetchCount) =
      (lookupA (runStore failThenOkCfg [.getStore "k" false, .subscribe "k"]
          (storeInit ())).entries (failThenOkCfg.hasher "k")).map
        (fun e => e.fetchCount + 1) := by
  exact lastFetchFailed_sticky_retrigger failThenOkCfg "k" [.getStore "k" false]
    (runStore failThenOkCfg [.getStore "k" false, .subscribe "k"] (storeInit ()))
    (by decide)

end RxJStore
